import Mathlib

/-!
Verification of the blueetl-core query/filter utilities
(src/blueetl_core/utils.py) against their natural-language specification.

The Python module is shallowly embedded:

- scalar cell values are an abstract type V with a decidable linear order
  (Python compares scalars with the comparison operators; the tests use
  ints and strings);
- a pandas Series or Index handed to compare is modelled by the list of
  its values (masks are positional, labels play no role in the masking
  logic);
- a filter value (the Any in the query dicts) is a scalar, a list of
  scalars, or an operator mapping; operator names and field names are
  strings, as in the source;
- Python dicts are modelled as association lists in insertion order;
  where the source compares dicts with ==, which in Python ignores the
  insertion order, the model uses an order-insensitive lookup-based
  equality (dict_beq below);
- fallible code returns Except: each raise statement of the source is one
  error constructor;
- regular-expression matching (the str.contains comparison operator) is
  kept abstract as a Boolean-valued parameter rmatch;
- operand shapes the value model cannot represent (nested Python lists)
  or that make the source raise a TypeError (ordering comparisons between
  a scalar and a list, membership tests inside a scalar) are modelled as
  errors, see the comments at the relevant definitions.
-/

deriving instance DecidableEq for Except

namespace BlueetlCore

/-- An operand inside an operator mapping, or the value a filter compares
against: a single scalar or a list of scalars (Python list-likes). -/
inductive Operand (V : Type) where
  | scalar (v : V)
  | vals (vs : List V)
deriving DecidableEq

/-- A filter value, the Any stored under a field name in a query dict:
a scalar (equality), a list (membership), or an operator mapping. -/
inductive FValue (V : Type) where
  | scalar (v : V)
  | vals (vs : List V)
  | ops (m : List (String × Operand V))

/-- A filter dictionary: field name to filter value, in insertion order. -/
abbrev FilterDict (V : Type) := List (String × FValue V)

/-- The keys of COMPARISON_OPERATORS in utils.py, in source order. -/
def comparison_operators : List String :=
  ["eq", "ne", "le", "lt", "ge", "gt", "isin", "regex"]

variable {V : Type}

/-- Order-insensitive equality of two association lists, the model of
Python dict equality (which ignores insertion order). -/
def dict_beq [DecidableEq B] (d1 d2 : List (String × B)) : Bool :=
  d1.all (fun p => List.lookup p.1 d2 == some p.2) &&
    d2.all (fun p => List.lookup p.1 d1 == some p.2)

/-- Python equality between two filter values: scalars and lists compare
structurally, operator mappings compare as dicts (order-insensitively),
values of different shapes are unequal. -/
def py_eq [DecidableEq V] : FValue V → FValue V → Bool
  | .scalar a, .scalar b => a == b
  | .vals a, .vals b => a == b
  | .ops a, .ops b => dict_beq a b
  | _, _ => false

section Compare

variable [LinearOrder V]

/-- Elementwise application of one recognized comparison operator to one
value of the series: the model of what the pandas method selected by
COMPARISON_OPERATORS does at each position. -/
def op_pred (rmatch : V → V → Bool) (op : String) (o : Operand V) (x : V) : Bool :=
  match op, o with
  | "eq", .scalar v => decide (x = v)
  | "ne", .scalar v => decide (x ≠ v)
  | "le", .scalar v => decide (x ≤ v)
  | "lt", .scalar v => decide (x < v)
  | "ge", .scalar v => decide (v ≤ x)
  | "gt", .scalar v => decide (v < x)
  | "isin", .vals vs => decide (x ∈ vs)
  | "regex", .scalar pat => rmatch x pat
  | _, _ => false

/-- Whether the operand has the shape its operator applies to elementwise:
a scalar for the comparison operators and the regex pattern, a list for
isin. Other shapes (comparing a series against a list, isin of a scalar)
are outside the scalar value model and are treated as a type error. -/
def op_well_typed : String → Operand V → Bool
  | "eq", .scalar _ => true
  | "ne", .scalar _ => true
  | "le", .scalar _ => true
  | "lt", .scalar _ => true
  | "ge", .scalar _ => true
  | "gt", .scalar _ => true
  | "isin", .vals _ => true
  | "regex", .scalar _ => true
  | _, _ => false

/-- One Boolean mask per operator: COMPARISON_OPERATORS[op](obj)(v). -/
def apply_op (rmatch : V → V → Bool) (op : String) (o : Operand V) (obj : List V) :
    Option (List Bool) :=
  if op_well_typed op o then some (obj.map (op_pred rmatch op o)) else none

/-- The errors the query/compare path can raise: the ValueError for an
empty operator mapping, the ValueError naming unsupported operators, a
TypeError from an operand of the wrong shape, and the KeyError pandas
raises for a field name that is neither a column nor an index level. -/
inductive QueryError where
  | invalidFilter
  | unsupportedOperator (ops : List String)
  | typeMismatch
  | keyError (k : String)
deriving DecidableEq

/-- Elementwise AND (np.all(masks, axis=0)) of a nonempty list of masks,
with the source's len == 1 shortcut folded in (same result). -/
def fold_and : List (List Bool) → List Bool
  | [] => []
  | m :: rest => rest.foldl (fun a b => List.zipWith and a b) m

/-- Elementwise OR (np.any(masks, axis=0)) of a nonempty list of masks. -/
def fold_or : List (List Bool) → List Bool
  | [] => []
  | m :: rest => rest.foldl (fun a b => List.zipWith or a b) m

/-- compare(obj, value) from utils.py: a dict value must be nonempty and
use only recognized operators, and yields the AND of the per-operator
masks; a list value is a membership mask; a scalar value is an equality
mask. -/
def compare (rmatch : V → V → Bool) (obj : List V) (value : FValue V) :
    Except QueryError (List Bool) :=
  match value with
  | .ops m =>
    if m.isEmpty then .error .invalidFilter
    else if ((m.map Prod.fst).filter (fun op => op ∉ comparison_operators)).isEmpty then
      match m.mapM (fun p => apply_op rmatch p.1 p.2 obj) with
      | some masks => .ok (fold_and masks)
      | none => .error .typeMismatch
    else
      .error (.unsupportedOperator
        ((m.map Prod.fst).filter (fun op => op ∉ comparison_operators)))
  | .vals vs => .ok (obj.map (fun x => decide (x ∈ vs)))
  | .scalar v => .ok (obj.map (fun x => decide (x = v)))

end Compare

/-- A DataFrame: named columns, named (or unnamed) index levels, and the
rows, each row holding its column cells and its index cells. Filtering a
DataFrame only ever removes rows, so the row-major view is faithful. -/
structure Table (V : Type) where
  colNames : List String
  levelNames : List (Option String)
  rows : List (List V × List V)
deriving DecidableEq

/-- A Series: named (or unnamed) index levels, and the entries, each one
holding its index cells and its value. -/
structure Series (V : Type) where
  levelNames : List (Option String)
  entries : List (List V × V)
deriving DecidableEq

/-- The column-or-index resolution of query_frame: the mapping built from
the non-null index level names, overridden by the non-null column names
(columns win on a name collision). true tags a column position, false an
index-level position. -/
def resolve_names (cn : List String) (ln : List (Option String)) (k : String) :
    Option (Bool × Nat) :=
  match cn.findIdx? (fun c => c = k) with
  | some i => some (true, i)
  | none =>
    match ln.findIdx? (fun n => n = some k) with
    | some i => some (false, i)
    | none => none

/-- The cell of one row at a resolved position. -/
def cell_at [Inhabited V] (r : List V × List V) (loc : Bool × Nat) : V :=
  if loc.1 then r.1.getD loc.2 default else r.2.getD loc.2 default

/-- The 1-D sequence query_frame hands to compare for a resolved field:
df[key] for a column, df.index.get_level_values(key) for a level. -/
def series_of [Inhabited V] (t : Table V) (loc : Bool × Nat) : List V :=
  t.rows.map (fun r => cell_at r loc)

/-- Keep the rows at the positions where the Boolean mask holds
(df.loc[mask]): order preserved, no duplication. -/
def select_mask {R : Type} (rows : List R) (mask : List Bool) : List R :=
  (rows.zip mask).filterMap (fun p => if p.2 then some p.1 else none)

/-- The for-loop of and_or_mask over an abstract per-dict mask builder:
each nonempty dict of the list contributes the AND of its field masks, an
empty dict is skipped, and an error from the mask builder propagates from
the dict that raised it. -/
def and_or_mask_loop (ff : FilterDict V → Except QueryError (List (List Bool))) :
    List (FilterDict V) → Except QueryError (List (List Bool))
  | [] => .ok []
  | q :: rest =>
    if q.isEmpty then and_or_mask_loop ff rest
    else
      match ff q with
      | .error e => .error e
      | .ok ams =>
        match and_or_mask_loop ff rest with
        | .error e => .error e
        | .ok ors => .ok (fold_and ams :: ors)

/-- and_or_mask from utils.py: the collected per-dict masks are OR-ed,
and none is returned when no dict contributed. -/
def and_or_mask (ff : FilterDict V → Except QueryError (List (List Bool)))
    (ql : List (FilterDict V)) : Except QueryError (Option (List Bool)) :=
  match and_or_mask_loop ff ql with
  | .error e => .error e
  | .ok orMasks => .ok (if orMasks.isEmpty then none else some (fold_or orMasks))

section QueryFrame

variable [LinearOrder V] [Inhabited V]

/-- The key-splitting loop of the filter_func of query_frame: resolve
every field name of the dict in order; an unresolved name is the KeyError
the source hits when it indexes the column-or-index mapping. -/
def resolve_locs (cn : List String) (ln : List (Option String)) :
    List (String × FValue V) →
      Except QueryError (List ((String × FValue V) × (Bool × Nat)))
  | [] => .ok []
  | p :: rest =>
    match resolve_names cn ln p.1 with
    | none => .error (QueryError.keyError p.1)
    | some loc =>
      match resolve_locs cn ln rest with
      | .error e => .error e
      | .ok locs => .ok ((p, loc) :: locs)

/-- One compare mask per resolved field, raised errors propagating from
the first field that fails. -/
def masks_of (rmatch : V → V → Bool) (t : Table V) :
    List ((String × FValue V) × (Bool × Nat)) →
      Except QueryError (List (List Bool))
  | [] => .ok []
  | e :: rest =>
    match compare rmatch (series_of t e.2) e.1.2 with
    | .error er => .error er
    | .ok mask =>
      match masks_of rmatch t rest with
      | .error er => .error er
      | .ok masks => .ok (mask :: masks)

/-- The filter_func of query_frame: resolve every field name, then build
one mask per field, the column fields first and the index fields second,
each group in dict order. -/
def filter_func (rmatch : V → V → Bool) (t : Table V) (q : FilterDict V) :
    Except QueryError (List (List Bool)) :=
  match resolve_locs t.colNames t.levelNames q with
  | .error e => .error e
  | .ok locs =>
    masks_of rmatch t
      (locs.filter (fun e => e.2.1 = true) ++ locs.filter (fun e => e.2.1 = false))

/-- query_frame(df, query_list) from utils.py: the DataFrame filtered by
the and/or mask, unchanged when no mask was built. -/
def query_frame (rmatch : V → V → Bool) (t : Table V) (ql : List (FilterDict V)) :
    Except QueryError (Table V) :=
  match and_or_mask (filter_func rmatch t) ql with
  | .error e => .error e
  | .ok none => .ok t
  | .ok (some mask) => .ok { t with rows := select_mask t.rows mask }

/-- The filter_func of query_series: one mask per field, on the index
level named by the field (get_level_values raises for an unknown name). -/
def filter_func_series (rmatch : V → V → Bool) (s : Series V) :
    FilterDict V → Except QueryError (List (List Bool))
  | [] => .ok []
  | p :: rest =>
    match s.levelNames.findIdx? (fun n => n = some p.1) with
    | none => .error (QueryError.keyError p.1)
    | some i =>
      match compare rmatch (s.entries.map (fun e => e.1.getD i default)) p.2 with
      | .error er => .error er
      | .ok mask =>
        match filter_func_series rmatch s rest with
        | .error er => .error er
        | .ok masks => .ok (mask :: masks)

/-- query_series(series, query_list) from utils.py. -/
def query_series (rmatch : V → V → Bool) (s : Series V) (ql : List (FilterDict V)) :
    Except QueryError (Series V) :=
  match and_or_mask (filter_func_series rmatch s) ql with
  | .error e => .error e
  | .ok none => .ok s
  | .ok (some mask) => .ok { s with entries := select_mask s.entries mask }

end QueryFrame

/-- The errors of is_subfilter: invalidFilter for the failed assertions
of the subdict check (the defensive invariant the spec calls
InvalidFilter), typeMismatch for an operand comparison the scalar model
rejects (Python TypeError), normalizeError for a normalization step the
value model cannot represent (an eq operand that is a list and would
nest, or a membership test inside a scalar isin operand, a TypeError in
Python as well). -/
inductive SubfilterError where
  | invalidFilter
  | typeMismatch
  | normalizeError
deriving DecidableEq

/-- The operator keys the subdict check accepts, in source order: the
keys of the operators mapping inside _is_subdict. Note that eq (always
normalized away) and regex are absent. -/
def subdict_ops : List String := ["ne", "le", "lt", "ge", "gt", "isin"]

section Subfilter

variable [LinearOrder V]

/-- The per-operator operation of _is_subdict: ne compares the operands
with operator.eq, le and lt both test left <= right, ge and gt both test
left >= right, isin tests set inclusion. Operand shapes the scalar model
cannot compare (Python would raise a TypeError for a scalar/list mix, and
compares two lists lexicographically, which the model leaves out) give
none. -/
def subdict_operation : String → Operand V → Operand V → Option Bool
  | "ne", a, b => some (a == b)
  | "le", .scalar a, .scalar b => some (decide (a ≤ b))
  | "lt", .scalar a, .scalar b => some (decide (a ≤ b))
  | "ge", .scalar a, .scalar b => some (decide (b ≤ a))
  | "gt", .scalar a, .scalar b => some (decide (b ≤ a))
  | "isin", .vals a, .vals b => some (decide (∀ x ∈ a, x ∈ b))
  | _, _, _ => none

/-- One operator of the _is_subdict for-loop: the operator stays out of
the unmatched set unless it is present in d2 and either missing from d1
or failing its operation. -/
def subdict_matched (d1 d2 : List (String × Operand V)) (op : String) :
    Except SubfilterError Bool :=
  match List.lookup op d2 with
  | none => .ok true
  | some b =>
    match List.lookup op d1 with
    | none => .ok false
    | some a =>
      match subdict_operation op a b with
      | some r => .ok r
      | none => .error SubfilterError.typeMismatch

/-- The for-loop of _is_subdict: true when no tried operator went into
the unmatched set. -/
def subdict_loop (d1 d2 : List (String × Operand V)) :
    List String → Except SubfilterError Bool
  | [] => .ok true
  | op :: rest =>
    match subdict_matched d1 d2 op with
    | .error e => .error e
    | .ok hb =>
      match subdict_loop d1 d2 rest with
      | .error e => .error e
      | .ok restb => .ok (hb && restb)

/-- _is_subdict(d1, d2) from utils.py: both dicts must use only the keys
of the operators mapping (the two assertions), and d1 is a subdict of d2
when no operator present in d2 is missing from d1 or fails its
operation. -/
def is_subdict (d1 d2 : List (String × Operand V)) : Except SubfilterError Bool :=
  if !(d1.all (fun p => p.1 ∈ subdict_ops)) then .error .invalidFilter
  else if !(d2.all (fun p => p.1 ∈ subdict_ops)) then .error .invalidFilter
  else subdict_loop d1 d2 subdict_ops

/-- Replace the value stored under isin, keeping its position (the
in-place dict update of _to_dict). -/
def set_isin (m : List (String × Operand V)) (o : Operand V) :
    List (String × Operand V) :=
  m.map (fun p => if p.1 = "isin" then (p.1, o) else p)

/-- _to_dict(obj) from utils.py: normalize a filter value to a dict,
replacing eq by isin. A scalar or a list becomes an isin dict; in a dict,
a popped eq value v turns into isin [v], or into the empty isin when v is
not in the existing isin list. none marks the two spots where the scalar
value model stops: an eq list operand with no isin present would nest a
list inside the new isin list, and an isin operand that is a scalar makes
the membership test a Python TypeError. -/
def to_dict : FValue V → Option (List (String × Operand V))
  | .scalar v => some [("isin", .vals [v])]
  | .vals l => some [("isin", .vals l)]
  | .ops m =>
    match List.lookup "eq" m with
    | none => some m
    | some ev =>
      let rest := m.filter (fun p => p.1 ≠ "eq")
      match ev, List.lookup "isin" m with
      | .scalar v, none => some (rest ++ [("isin", .vals [v])])
      | .scalar v, some (.vals l) =>
        some (set_isin rest (.vals (if v ∈ l then [v] else [])))
      | .vals _, some (.vals _) =>
        -- a list is never an element of a list of scalars, so the isin
        -- list always collapses to empty here
        some (set_isin rest (.vals []))
      | _, some (.scalar _) => none
      | .vals _, none => none

/-- The loop of is_subfilter over the keys of right, carrying the set of
left keys not yet matched exactly (difference). -/
def is_subfilter_loop (left : FilterDict V) (strict : Bool) :
    List (String × FValue V) → List String → Except SubfilterError Bool
  | [], difference => .ok (!strict || difference.length > 0)
  | (k, v) :: rest, difference =>
    match List.lookup k left with
    | none => .ok false
    | some lv =>
      match to_dict lv, to_dict v with
      | some dl, some dr =>
        if strict && dict_beq dl dr then
          is_subfilter_loop left strict rest (difference.erase k)
        else
          match is_subdict dl dr with
          | .error e => .error e
          | .ok false => .ok false
          | .ok true => is_subfilter_loop left strict rest difference
      | _, _ => .error .normalizeError

/-- is_subfilter(left, right, strict) from utils.py: every key of right
must be present in left with a normalized value that is a subdict of
right's; under strict, a key whose normalized values are equal dicts is
skipped and removed from the difference set, and at the end at least one
key of left must remain in it. -/
def is_subfilter (left right : FilterDict V) (strict : Bool) :
    Except SubfilterError Bool :=
  is_subfilter_loop left strict right ((left.map Prod.fst).dedup)

end Subfilter

/-- Sanity check mirroring the compare docstring example on ge/lt. -/
theorem sanity_compare_ge_lt :
    compare (fun _ _ => false) ([0, 2, 3, 7, 8] : List Int)
      (.ops [("ge", .scalar 3), ("lt", .scalar 8)]) =
      .ok [false, false, true, true, false] := by decide

/-- Sanity check mirroring the compare docstring example on a scalar. -/
theorem sanity_compare_scalar :
    compare (fun _ _ => false) ([0, 2, 3, 7, 8] : List Int) (.scalar 3) =
      .ok [false, false, true, false, false] := by decide

/-- Sanity check mirroring the compare docstring example on a list. -/
theorem sanity_compare_isin :
    compare (fun _ _ => false) ([0, 2, 3, 7, 8] : List Int) (.vals [3, 5, 8]) =
      .ok [false, false, true, false, true] := by decide

/-- longest_match_count(iter1, iter2) from utils.py: the number of
matching elements from the beginning of the two sequences. The elementwise
equality is a parameter because Python dispatches != dynamically (the
cache compares string keys and arbitrary query values). -/
def longest_match_count {A B : Type} (eqf : A → B → Bool) : List A → List B → Nat
  | a :: l1, b :: l2 => if eqf a b then longest_match_count eqf l1 l2 + 1 else 0
  | _, _ => 0

/-- Item of CachedDataFrame: a DataFrame filtered by key=value and by
every previous key and value in the stack. -/
structure CachedItem (V : Type) where
  df : Table V
  key : String
  value : FValue V

/-- The state of a CachedDataFrame: the base DataFrame and the stack of
cached filtered views (matched is the diagnostic prefix length of the
most recent query). -/
structure CachedDataFrame (V : Type) where
  base : Table V
  stack : List (CachedItem V)
  matched : Nat

/-- The valid keys computed by the CachedDataFrame constructor: the
column names plus the truthy (non-null, nonempty) index level names. -/
def Table.valid_keys (t : Table V) : List String :=
  t.colNames ++ (t.levelNames.filterMap id).filter (fun n => n ≠ "")

/-- The matched count of CachedDataFrame.query: the minimum of the
longest key-prefix match and the longest value-prefix match between the
stack and the new query. -/
def matched_count [DecidableEq V] (stack : List (CachedItem V))
    (qk : List String) (qv : List (FValue V)) : Nat :=
  min (longest_match_count (fun a b => a == b) (stack.map (fun it => it.key)) qk)
    (longest_match_count py_eq (stack.map (fun it => it.value)) qv)

/-- The specification's description of the matched count: the length of
the longest prefix in which, at each position, both the key and the value
of the query match the corresponding stack entry. -/
def pair_match_count [DecidableEq V] :
    List (String × FValue V) → List (String × FValue V) → Nat
  | x :: xs, y :: ys =>
    if x.1 = y.1 ∧ py_eq x.2 y.2 then pair_match_count xs ys + 1 else 0
  | _, _ => 0

/-- The table at the top of the stack: the last cached view, or the base
DataFrame when the stack is empty. -/
def last_table (base : Table V) (stack : List (CachedItem V)) : Table V :=
  match stack.getLast? with
  | some it => it.df
  | none => base

section Cached

variable [LinearOrder V] [Inhabited V]

/-- Modelled from the spec: the DataFrame accessor method etl.q called by
CachedDataFrame.query is not part of src (it lives in the package's etl
module); per the spec the cache delegates row-filtering for each single
key=value pair to the same masking logic, so etl.q of one query dict is
query_frame of that dict. -/
def etl_q (rmatch : V → V → Bool) (t : Table V) (q : FilterDict V) :
    Except QueryError (Table V) :=
  query_frame rmatch t [q]

/-- The while-loop of CachedDataFrame.query: starting from the table at
the top of the truncated stack, apply the filter for every remaining
field in order, pushing one stack entry per field. An error propagates
and leaves the entries already pushed in place, as the raised exception
does in the source. -/
def extend_loop (rmatch : V → V → Bool) :
    List (String × FValue V) → Table V → List (CachedItem V) →
    Except QueryError (Table V) × List (CachedItem V)
  | [], df, stack => (.ok df, stack)
  | p :: rest, df, stack =>
    match etl_q rmatch df [p] with
    | .error e => (.error e, stack)
    | .ok df2 => extend_loop rmatch rest df2 (stack ++ [CachedItem.mk df2 p.1 p.2])

/-- CachedDataFrame.query(query, ignore_unknown_keys) from utils.py:
optionally prune unknown keys, truncate the stack to the matched prefix,
then filter field by field from the retained view, returning the final
view (or the propagated error) together with the mutated state. -/
def CachedDataFrame.query (rmatch : V → V → Bool) (s : CachedDataFrame V)
    (q : FilterDict V) (ignoreUnknownKeys : Bool) :
    Except QueryError (Table V) × CachedDataFrame V :=
  let q := if ignoreUnknownKeys then q.filter (fun p => p.1 ∈ s.base.valid_keys) else q
  let m := matched_count s.stack (q.map Prod.fst) (q.map Prod.snd)
  let stack0 := s.stack.take m
  let df0 := last_table s.base stack0
  let (res, stack2) := extend_loop rmatch (q.drop m) df0 stack0
  (res, CachedDataFrame.mk s.base stack2 m)

/-- The cache states reachable from a freshly constructed CachedDataFrame
by any sequence of query calls (successful or not, with or without
pruning of unknown keys). -/
inductive Reachable (rmatch : V → V → Bool) : CachedDataFrame V → Prop where
  | init (base : Table V) : Reachable rmatch (CachedDataFrame.mk base [] 0)
  | step {s : CachedDataFrame V} (q : FilterDict V) (ig : Bool) :
      Reachable rmatch s → Reachable rmatch (CachedDataFrame.query rmatch s q ig).2

end Cached

/-- The errors of smart_concat while aligning index levels: a level count
that differs from the first operand's, reported as expected (the current
operand's level count) versus got (the first operand's), and level names
of the first operand missing from the current one, reported as the set of
missing names. -/
inductive ConcatError where
  | lengthMismatch (nlevels got : Nat)
  | levelsNotFound (missing : List (Option String))
deriving DecidableEq

/-- An object handed to smart_concat, as far as index-level alignment is
concerned: its index level names, and one tuple of index cells per row
(no rows marks an empty object for skip_empty). -/
structure PIndexed (V : Type) where
  levelNames : List (Option String)
  rows : List (List V)
deriving DecidableEq

/-- One row of index cells permuted into the requested level order. -/
def reorder_row [Inhabited V] (names order : List (Option String))
    (row : List V) : List V :=
  order.map (fun n =>
    match names.findIdx? (fun c => c = n) with
    | some i => row.getD i default
    | none => default)

/-- The wrapped reorder_levels of smart_concat: an explicit error when
the requested order has the wrong length or names the object's index does
not have, the reordered object otherwise. -/
def reorder_levels [Inhabited V] (obj : PIndexed V) (order : List (Option String)) :
    Except ConcatError (PIndexed V) :=
  if order.length ≠ obj.levelNames.length then
    .error (.lengthMismatch obj.levelNames.length order.length)
  else
    let missing := (order.filter (fun n => n ∉ obj.levelNames)).dedup
    if missing.isEmpty then
      .ok (PIndexed.mk order (obj.rows.map (reorder_row obj.levelNames order)))
    else .error (.levelsNotFound missing)

/-- The _ordered pass of smart_concat: the first object fixes the level
order, every later object whose names differ is reordered (or rejected)
to match it. -/
def ordered_fold [Inhabited V] :
    Option (List (Option String)) → List (PIndexed V) →
    Except ConcatError (List (PIndexed V))
  | _, [] => .ok []
  | none, obj :: rest => do
    let tail ← ordered_fold (some obj.levelNames) rest
    .ok (obj :: tail)
  | some order, obj :: rest => do
    let obj2 ← if order = obj.levelNames then pure obj else reorder_levels obj order
    let tail ← ordered_fold (some order) rest
    .ok (obj2 :: tail)

/-- smart_concat(iterable, skip_empty) from utils.py, up to the final
external pd.concat call: align every operand's index levels with the
first operand's, then drop the empty operands unless all are empty. The
result is the operand list handed to pd.concat. -/
def smart_concat [Inhabited V] (objs : List (PIndexed V)) (skipEmpty : Bool) :
    Except ConcatError (List (PIndexed V)) := do
  let objects ← ordered_fold none objs
  pure (if skipEmpty && !(objects.all (fun o => o.rows.isEmpty)) then
    objects.filter (fun o => !o.rows.isEmpty)
  else objects)

/-- Sanity checks mirroring rows of the is_subfilter docstring and of
test_is_subfilter (non-strict). -/
theorem sanity_is_subfilter :
    is_subfilter ([] : FilterDict Int) [] false = .ok true ∧
    is_subfilter ([] : FilterDict Int) [("key", .scalar 1)] false = .ok false ∧
    is_subfilter ([("key", .scalar 1)] : FilterDict Int) [] false = .ok true ∧
    is_subfilter ([("key", .scalar 1)] : FilterDict Int)
      [("key", .scalar 1)] false = .ok true ∧
    is_subfilter ([("key", .scalar 1)] : FilterDict Int)
      [("key", .vals [1, 2])] false = .ok true ∧
    is_subfilter ([("key", .scalar 1)] : FilterDict Int)
      [("key", .ops [("isin", .vals [2, 3])])] false = .ok false ∧
    is_subfilter ([("key", .ops [("le", .scalar 3), ("ge", .scalar 1)])] : FilterDict Int)
      [("key", .ops [("le", .scalar 4)])] false = .ok true ∧
    is_subfilter ([("key", .scalar 1)] : FilterDict Int)
      [("key", .ops [("eq", .scalar 1), ("isin", .vals [2, 3])])] false = .ok false ∧
    is_subfilter ([("key1", .scalar 1), ("key2", .scalar 2)] : FilterDict Int)
      [("key1", .scalar 1)] false = .ok true ∧
    is_subfilter ([("key1", .scalar 1)] : FilterDict Int)
      [("key1", .scalar 1), ("key2", .scalar 2)] false = .ok false := by
  decide

/-- Sanity checks mirroring rows of test_is_subfilter_strict. -/
theorem sanity_is_subfilter_strict :
    is_subfilter ([] : FilterDict Int) [] true = .ok false ∧
    is_subfilter ([("key", .scalar 1)] : FilterDict Int) [] true = .ok true ∧
    is_subfilter ([("key", .scalar 1)] : FilterDict Int)
      [("key", .scalar 1)] true = .ok false ∧
    is_subfilter ([("key", .scalar 1)] : FilterDict Int)
      [("key", .vals [1])] true = .ok false ∧
    is_subfilter ([("key", .scalar 1)] : FilterDict Int)
      [("key", .vals [1, 2])] true = .ok true ∧
    is_subfilter ([("key", .ops [("lt", .scalar 3)])] : FilterDict Int)
      [("key", .ops [("lt", .scalar 4)])] true = .ok true ∧
    is_subfilter ([("key", .ops [("lt", .scalar 3)])] : FilterDict Int)
      [("key", .ops [("lt", .scalar 3)])] true = .ok false ∧
    is_subfilter ([("key1", .scalar 1), ("key2", .scalar 2)] : FilterDict Int)
      [("key1", .scalar 1)] true = .ok true := by
  decide

/-- Sanity checks mirroring rows of test_longest_match_count. -/
theorem sanity_longest_match_count :
    longest_match_count (fun a b => a == b) ([] : List Int) [] = 0 ∧
    longest_match_count (fun a b => a == b) ([] : List Int) [1, 2, 3] = 0 ∧
    longest_match_count (fun a b => a == b) ([1, 2] : List Int) [1, 2, 3] = 2 ∧
    longest_match_count (fun a b => a == b) ([1, 2, 3] : List Int) [1, 2] = 2 ∧
    longest_match_count (fun a b => a == b) ([1, 2, 3] : List Int) [1, 2, 3] = 3 ∧
    longest_match_count (fun a b => a == b) ([2, 3, 1] : List Int) [1, 2, 3] = 0 ∧
    longest_match_count (fun a b => a == b) ([1, 4, 3] : List Int) [1, 2, 3] = 1 := by
  decide

/-- Sanity check mirroring the shape of test_cached_dataframe (with the
window column coded as an int): the first query matches nothing cached,
a follow-up query adding trial reuses the three cached entries, changing
only the trial value still reuses them, and removing trial reverts to
the three-field result. -/
theorem sanity_cached_dataframe :
    (let df : Table Int := Table.mk ["simulation_id", "circuit_id", "window", "trial"] []
      [([0, 0, 0, 0], []), ([0, 0, 0, 1], []), ([0, 0, 1, 0], []), ([0, 0, 1, 1], []),
       ([1, 0, 0, 0], []), ([1, 0, 0, 1], []), ([1, 0, 1, 0], []), ([1, 0, 1, 1], [])]
    let rm : Int → Int → Bool := fun _ _ => false
    let q3 : FilterDict Int :=
      [("simulation_id", .scalar 1), ("circuit_id", .scalar 0), ("window", .scalar 0)]
    let r1 := CachedDataFrame.query rm (CachedDataFrame.mk df [] 0) q3 false
    let r2 := CachedDataFrame.query rm r1.2 (q3 ++ [("trial", .scalar 1)]) false
    let r3 := CachedDataFrame.query rm r2.2 (q3 ++ [("trial", .scalar 0)]) false
    let r4 := CachedDataFrame.query rm r3.2 q3 false
    r1.1 = .ok (Table.mk ["simulation_id", "circuit_id", "window", "trial"] []
        [([1, 0, 0, 0], []), ([1, 0, 0, 1], [])]) ∧
    r1.2.matched = 0 ∧ r1.2.stack.length = 3 ∧
    r2.1 = .ok (Table.mk ["simulation_id", "circuit_id", "window", "trial"] []
        [([1, 0, 0, 1], [])]) ∧
    r2.2.matched = 3 ∧ r2.2.stack.length = 4 ∧
    r3.1 = .ok (Table.mk ["simulation_id", "circuit_id", "window", "trial"] []
        [([1, 0, 0, 0], [])]) ∧
    r3.2.matched = 3 ∧ r3.2.stack.length = 4 ∧
    r4.1 = .ok (Table.mk ["simulation_id", "circuit_id", "window", "trial"] []
        [([1, 0, 0, 0], []), ([1, 0, 0, 1], [])]) ∧
    r4.2.matched = 3 ∧ r4.2.stack.length = 3) := by
  decide

/-- longest_match_count against an empty sequence is zero. -/
theorem longest_match_count_nil_right {A B : Type} (eqf : A → B → Bool)
    (l : List A) : longest_match_count eqf l [] = 0 := by
  cases l <;> rfl

/-- The minimum of the keywise and valuewise longest prefix counts is the
pairwise longest prefix count. -/
theorem min_lmc_eq_pair_match_count [DecidableEq V]
    (xs ys : List (String × FValue V)) :
    min (longest_match_count (fun a b => a == b) (xs.map Prod.fst) (ys.map Prod.fst))
      (longest_match_count py_eq (xs.map Prod.snd) (ys.map Prod.snd)) =
      pair_match_count xs ys := by
  induction xs generalizing ys with
  | nil => cases ys <;> simp [longest_match_count, pair_match_count]
  | cons x xs ih =>
    cases ys with
    | nil => simp [longest_match_count, pair_match_count]
    | cons y ys =>
      simp only [List.map_cons, longest_match_count, pair_match_count]
      by_cases hk : x.1 = y.1
      · by_cases hv : py_eq x.2 y.2 = true
        · simp [hk, hv, ← ih ys, Nat.succ_min_succ]
        · simp [hk, hv]
      · simp [hk, fun h => hk (by exact h)]

/-- C2: the matched count of CachedDataFrame.query, the minimum of the
longest common key prefix and the longest common value prefix between the
stack and the query, equals for every stack and every query the length of
the longest prefix in which at each position both the key and the value
match the corresponding stack entry; a key matching with a different
value, or a value matching with a different key, stops the prefix there. -/
theorem matched_count_eq_pair_match_count [DecidableEq V]
    (stack : List (CachedItem V)) (q : List (String × FValue V)) :
    matched_count stack (q.map Prod.fst) (q.map Prod.snd) =
      pair_match_count (stack.map (fun it => (it.key, it.value))) q := by
  have h := min_lmc_eq_pair_match_count (stack.map (fun it => (it.key, it.value))) q
  simpa [matched_count, List.map_map, Function.comp] using h

/-- C9: a query with an empty filter dictionary, from any cache state and
with either setting of ignore_unknown_keys, truncates the stack to empty
and returns the base table itself, unchanged. -/
theorem query_empty_dict_resets [LinearOrder V] [Inhabited V]
    (rmatch : V → V → Bool) (s : CachedDataFrame V) (ig : Bool) :
    CachedDataFrame.query rmatch s [] ig =
      (.ok s.base, CachedDataFrame.mk s.base [] 0) := by
  cases ig <;>
    simp [CachedDataFrame.query, matched_count, longest_match_count_nil_right,
      extend_loop, last_table]

/-- C4: the per-operator restrictiveness checks of the subdict
comparison, exhibited on singleton normalized values: ne is satisfied
exactly when the two operands are equal, le and lt are both accepted
exactly when the left bound is at most the right bound (the non-strict
test is used for lt as well), ge and gt both exactly when the left bound
is at least the right bound, and isin exactly when the left candidate set
is a subset of the right one. -/
theorem subdict_per_operator_check [LinearOrder V] :
    (∀ a b : Operand V, is_subdict [("ne", a)] [("ne", b)] = .ok (a == b)) ∧
    (∀ x y : V, is_subdict [("le", Operand.scalar x)] [("le", Operand.scalar y)] =
      .ok (decide (x ≤ y))) ∧
    (∀ x y : V, is_subdict [("lt", Operand.scalar x)] [("lt", Operand.scalar y)] =
      .ok (decide (x ≤ y))) ∧
    (∀ x y : V, is_subdict [("ge", Operand.scalar x)] [("ge", Operand.scalar y)] =
      .ok (decide (y ≤ x))) ∧
    (∀ x y : V, is_subdict [("gt", Operand.scalar x)] [("gt", Operand.scalar y)] =
      .ok (decide (y ≤ x))) ∧
    (∀ l1 l2 : List V, is_subdict [("isin", Operand.vals l1)] [("isin", Operand.vals l2)] =
      .ok (decide (∀ x ∈ l1, x ∈ l2))) := by
  refine ⟨fun a b => ?_, fun x y => ?_, fun x y => ?_, fun x y => ?_,
    fun x y => ?_, fun l1 l2 => ?_⟩ <;>
    simp [is_subdict, subdict_ops, subdict_loop, subdict_matched,
      subdict_operation, List.lookup]

/-- C10: the empty filter is maximal in the subfilter order: every filter
dictionary is a non-strict subfilter of the empty one, and a strict
subfilter of it exactly when it has at least one field. -/
theorem is_subfilter_empty_right [LinearOrder V] (f : FilterDict V) :
    is_subfilter f [] false = .ok true ∧
    is_subfilter f [] true = .ok (!f.isEmpty) := by
  constructor
  · rfl
  · simp only [is_subfilter, is_subfilter_loop, Bool.not_true, Bool.false_or]
    congr 1
    rcases f with _ | ⟨p, rest⟩
    · simp
    · have h1 : ((p :: rest).map Prod.fst).dedup ≠ [] := by
        simp [List.dedup_eq_nil]
      have h2 : 0 < ((p :: rest).map Prod.fst).dedup.length :=
        List.length_pos.mpr h1
      simp only [List.isEmpty, Bool.not_false]
      simpa using h2

/-- A successful association-list lookup returns a member. -/
theorem lookup_mem {B : Type} {k : String} {b : B} :
    ∀ {l : List (String × B)}, List.lookup k l = some b → (k, b) ∈ l := by
  intro l
  induction l with
  | nil => intro h; simp at h
  | cons p rest ih =>
    obtain ⟨a, c⟩ := p
    intro h
    rw [List.lookup_cons] at h
    by_cases hk : k = a
    · rw [hk, beq_self_eq_true] at h
      simp only [Option.some.injEq] at h
      simp [hk, ← h]
    · rw [beq_false_of_ne hk] at h
      exact List.mem_cons_of_mem _ (ih h)

/-- A failed association-list lookup means the key binds nothing. -/
theorem lookup_none {B : Type} {k : String} {b : B} :
    ∀ {l : List (String × B)}, List.lookup k l = none → (k, b) ∉ l := by
  intro l
  induction l with
  | nil => intro _ h; simp at h
  | cons p rest ih =>
    obtain ⟨a, c⟩ := p
    intro h hmem
    rw [List.lookup_cons] at h
    by_cases hk : k = a
    · rw [hk, beq_self_eq_true] at h
      simp at h
    · rw [beq_false_of_ne hk] at h
      rcases List.mem_cons.mp hmem with h1 | h1
      · exact hk (congrArg Prod.fst h1)
      · exact ih h h1

/-- With no duplicate keys, looking up the key of a member returns its
value. -/
theorem nodup_lookup_self {B : Type} :
    ∀ {l : List (String × B)}, (l.map Prod.fst).Nodup →
      ∀ p ∈ l, List.lookup p.1 l = some p.2 := by
  intro l
  induction l with
  | nil => intro _ p hp; simp at hp
  | cons q rest ih =>
    obtain ⟨a, c⟩ := q
    intro hnd p hp
    have hnd1 : (a :: rest.map Prod.fst).Nodup := by simpa using hnd
    have hnd2 := List.nodup_cons.mp hnd1
    rcases List.mem_cons.mp hp with h1 | h1
    · rw [h1]
      simp [List.lookup_cons]
    · rw [List.lookup_cons]
      have hne : p.1 ≠ a := by
        intro heq
        apply hnd2.1
        rw [← heq]
        exact List.mem_map_of_mem Prod.fst h1
      rw [beq_false_of_ne hne]
      exact ih hnd2.2 p h1

/-- dict_beq is reflexive on a dict without duplicate keys. -/
theorem dict_beq_refl {B : Type} [DecidableEq B] {d : List (String × B)}
    (hnd : (d.map Prod.fst).Nodup) : dict_beq d d = true := by
  have h : d.all (fun p => List.lookup p.1 d == some p.2) = true := by
    rw [List.all_eq_true]
    intro p hp
    simp [nodup_lookup_self hnd p hp]
  simp [dict_beq, h]

/-- Operand shapes the subfilter comparison handles for each operator
key: any operand for ne, a scalar for eq and the four bound comparisons,
a list for isin; every other key (regex included) is rejected. -/
def sub_op_typed : String → Operand V → Bool
  | "eq", .scalar _ => true
  | "ne", _ => true
  | "le", .scalar _ => true
  | "lt", .scalar _ => true
  | "ge", .scalar _ => true
  | "gt", .scalar _ => true
  | "isin", .vals _ => true
  | _, _ => false

/-- A filter value the subfilter comparison fully supports: a scalar, a
list, or an operator mapping without duplicate keys whose every entry is
a supported operator with an operand of the right shape. -/
def wf_value : FValue V → Bool
  | .scalar _ => true
  | .vals _ => true
  | .ops m => decide (m.map Prod.fst).Nodup && m.all (fun p => sub_op_typed p.1 p.2)

/-- A well-formed filter dictionary for the subfilter comparison: no
duplicate field names, every value supported. -/
def wf_filter (f : FilterDict V) : Bool :=
  decide (f.map Prod.fst).Nodup && f.all (fun p => wf_value p.2)

/-- A supported operator other than eq is a key of the subdict operators
mapping and its operation holds reflexively. -/
theorem sub_op_typed_props [LinearOrder V] {op : String} {o : Operand V}
    (h : sub_op_typed op o = true) (hne : op ≠ "eq") :
    op ∈ subdict_ops ∧ subdict_operation op o o = some true := by
  unfold sub_op_typed at h
  split at h <;> simp_all [subdict_ops, subdict_operation]

/-- set_isin does not change the keys of the dict. -/
theorem set_isin_keys (m : List (String × Operand V)) (o : Operand V) :
    (set_isin m o).map Prod.fst = m.map Prod.fst := by
  unfold set_isin
  rw [List.map_map]
  apply List.map_congr_left
  intro p _
  by_cases hp : p.1 = "isin" <;> simp [hp, Function.comp]

/-- Every member of set_isin m o is a member of m or carries the isin
key with the new operand. -/
theorem set_isin_mem {m : List (String × Operand V)} {o : Operand V} {p : String × Operand V}
    (hp : p ∈ set_isin m o) : p ∈ m ∨ p = ("isin", o) := by
  unfold set_isin at hp
  obtain ⟨q, hq, hpq⟩ := List.mem_map.mp hp
  by_cases hk : q.1 = "isin"
  · right
    rw [← hpq]
    simp [hk]
  · left
    rw [← hpq]
    simpa [hk] using hq

/-- Normalizing a supported filter value succeeds and yields a dict
without duplicate keys whose every entry uses a subdict operator and
holds reflexively. -/
theorem to_dict_wf [LinearOrder V] {v : FValue V} (h : wf_value v = true) :
    ∃ d, to_dict v = some d ∧ (d.map Prod.fst).Nodup ∧
      ∀ p ∈ d, p.1 ∈ subdict_ops ∧ subdict_operation p.1 p.2 p.2 = some true := by
  cases v with
  | scalar w =>
    refine ⟨[("isin", .vals [w])], rfl, by simp, ?_⟩
    intro p hp
    simp only [List.mem_singleton] at hp
    subst hp
    exact ⟨by simp [subdict_ops], by simp [subdict_operation]⟩
  | vals l =>
    refine ⟨[("isin", .vals l)], rfl, by simp, ?_⟩
    intro p hp
    simp only [List.mem_singleton] at hp
    subst hp
    exact ⟨by simp [subdict_ops], by simp [subdict_operation]⟩
  | ops m =>
    simp only [wf_value, Bool.and_eq_true, decide_eq_true_eq, List.all_eq_true] at h
    obtain ⟨hnd, hall⟩ := h
    have hrest_sub : (m.filter (fun p => p.1 ≠ "eq")).Sublist m := List.filter_sublist m
    have hrest_nd : ((m.filter (fun p => p.1 ≠ "eq")).map Prod.fst).Nodup :=
      (hrest_sub.map Prod.fst).nodup hnd
    have hrest_mem : ∀ p ∈ m.filter (fun p => p.1 ≠ "eq"),
        p ∈ m ∧ p.1 ≠ "eq" := by
      intro p hp
      have := List.mem_filter.mp hp
      exact ⟨this.1, by simpa using this.2⟩
    have hrest_props : ∀ p ∈ m.filter (fun p => p.1 ≠ "eq"),
        p.1 ∈ subdict_ops ∧ subdict_operation p.1 p.2 p.2 = some true := by
      intro p hp
      obtain ⟨hpm, hpe⟩ := hrest_mem p hp
      exact sub_op_typed_props (hall p hpm) hpe
    cases heq : List.lookup "eq" m with
    | none =>
      refine ⟨m, by simp only [to_dict, heq], hnd, ?_⟩
      intro p hp
      have hne : p.1 ≠ "eq" := by
        intro hh
        apply lookup_none (b := p.2) heq
        rw [← hh]
        simpa using hp
      exact sub_op_typed_props (hall p hp) hne
    | some ev =>
      have hmem := lookup_mem heq
      have htev := hall _ hmem
      cases ev with
      | vals l => simp [sub_op_typed] at htev
      | scalar w =>
        cases hisin : List.lookup "isin" m with
        | none =>
          refine ⟨m.filter (fun p => p.1 ≠ "eq") ++ [("isin", Operand.vals [w])],
            by simp only [to_dict, heq, hisin], ?_, ?_⟩
          · rw [List.map_append]
            simp only [List.map_cons, List.map_nil]
            rw [List.nodup_append]
            refine ⟨hrest_nd, by simp, ?_⟩
            intro a ha hb
            simp only [List.mem_singleton] at hb
            subst hb
            obtain ⟨q, hq, hq1⟩ := List.mem_map.mp ha
            obtain ⟨hqm, _⟩ := hrest_mem q hq
            apply lookup_none (b := q.2) hisin
            rw [← hq1]
            simpa using hqm
          · intro p hp
            rcases List.mem_append.mp hp with h1 | h1
            · exact hrest_props p h1
            · simp only [List.mem_singleton] at h1
              subst h1
              exact ⟨by simp [subdict_ops], by simp [subdict_operation]⟩
        | some io =>
          have hioMem := lookup_mem hisin
          have htio := hall _ hioMem
          cases io with
          | scalar u => simp [sub_op_typed] at htio
          | vals l =>
            refine ⟨set_isin (m.filter (fun p => p.1 ≠ "eq"))
                (Operand.vals (if w ∈ l then [w] else [])),
              by simp only [to_dict, heq, hisin], ?_, ?_⟩
            · rw [set_isin_keys]
              exact hrest_nd
            · intro p hp
              rcases set_isin_mem hp with h1 | h1
              · exact hrest_props p h1
              · subst h1
                exact ⟨by simp [subdict_ops], by simp [subdict_operation]⟩

/-- One operator of the subdict loop is matched when comparing a dict
with itself, provided its operation holds reflexively on members. -/
theorem subdict_matched_refl [LinearOrder V] {d : List (String × Operand V)}
    (hprops : ∀ p ∈ d, subdict_operation p.1 p.2 p.2 = some true) (op : String) :
    subdict_matched d d op = .ok true := by
  unfold subdict_matched
  cases hl : List.lookup op d with
  | none => rfl
  | some b =>
    have hop := hprops (op, b) (lookup_mem hl)
    simp [hop]

/-- The subdict loop over any operator list succeeds on a reflexively
matched dict. -/
theorem subdict_loop_refl [LinearOrder V] {d : List (String × Operand V)}
    (hprops : ∀ p ∈ d, subdict_operation p.1 p.2 p.2 = some true) :
    ∀ ops, subdict_loop d d ops = .ok true := by
  intro ops
  induction ops with
  | nil => rfl
  | cons op rest ih => simp [subdict_loop, subdict_matched_refl hprops op, ih]

/-- _is_subdict is reflexively true on a dict of supported operators. -/
theorem is_subdict_refl [LinearOrder V] {d : List (String × Operand V)}
    (hkeys : ∀ p ∈ d, p.1 ∈ subdict_ops)
    (hprops : ∀ p ∈ d, subdict_operation p.1 p.2 p.2 = some true) :
    is_subdict d d = .ok true := by
  have hall : d.all (fun p => decide (p.1 ∈ subdict_ops)) = true := by
    rw [List.all_eq_true]
    intro p hp
    exact decide_eq_true (hkeys p hp)
  unfold is_subdict
  rw [hall]
  simp [subdict_loop_refl hprops]

/-- The non-strict is_subfilter loop, run over entries that all look up
to themselves in left and are supported, returns true. -/
theorem is_subfilter_loop_refl_nonstrict [LinearOrder V] (f : FilterDict V) :
    ∀ (rest : List (String × FValue V)) (diff : List String),
      (∀ p ∈ rest, List.lookup p.1 f = some p.2 ∧ wf_value p.2 = true) →
      is_subfilter_loop f false rest diff = .ok true := by
  intro rest
  induction rest with
  | nil => intro diff _; rfl
  | cons p rest2 ih =>
    intro diff hall
    obtain ⟨hlk, hwf⟩ := hall p (List.mem_cons_self p rest2)
    obtain ⟨d, hd, hnd, hprops⟩ := to_dict_wf hwf
    obtain ⟨k, v⟩ := p
    simp only [is_subfilter_loop, hlk, hd]
    have hsd : is_subdict d d = .ok true :=
      is_subdict_refl (fun q hq => (hprops q hq).1) (fun q hq => (hprops q hq).2)
    simp only [Bool.false_and, Bool.and_eq_true, if_neg (by simp : ¬(false = true ∧ dict_beq d d = true))]
    rw [hsd]
    exact ih diff (fun q hq => hall q (List.mem_cons_of_mem _ hq))

/-- The strict is_subfilter loop, run over entries that all look up to
themselves in left, erases exactly the processed keys from the
difference set and ends with false. -/
theorem is_subfilter_loop_refl_strict [LinearOrder V] (f : FilterDict V) :
    ∀ (rest : List (String × FValue V)),
      (∀ p ∈ rest, List.lookup p.1 f = some p.2 ∧ wf_value p.2 = true) →
      is_subfilter_loop f true rest (rest.map Prod.fst) = .ok false := by
  intro rest
  induction rest with
  | nil => intro _; rfl
  | cons p rest2 ih =>
    intro hall
    obtain ⟨hlk, hwf⟩ := hall p (List.mem_cons_self p rest2)
    obtain ⟨d, hd, hnd, hprops⟩ := to_dict_wf hwf
    obtain ⟨k, v⟩ := p
    have hbeq : dict_beq d d = true := dict_beq_refl hnd
    simp only [List.map_cons, is_subfilter_loop, hlk, hd, Bool.true_and, hbeq,
      if_pos rfl, List.erase_cons_head]
    exact ih (fun q hq => hall q (List.mem_cons_of_mem _ hq))

/-- C5 counterexample: a filter using only the recognized operator regex
(part of the specification's recognized operator set, hence well-formed
by the specification's data model) makes the non-strict self-comparison
fail with the InvalidFilter invariant violation instead of returning
True: the subdict check accepts only ne, le, lt, ge, gt, isin. -/
theorem is_subfilter_regex_self_fails :
    is_subfilter [("key", FValue.ops [("regex", Operand.scalar "x")])]
      [("key", FValue.ops [("regex", Operand.scalar "x")])] false =
      .error .invalidFilter := by
  decide

/-- C5 (amended): for every filter dictionary without duplicate field
names whose operator mappings use only eq, ne, le, lt, ge, gt, isin with
operands of the right shape, the non-strict self-comparison returns True
and the strict one returns False. -/
theorem is_subfilter_refl [LinearOrder V] (f : FilterDict V)
    (hf : wf_filter f = true) :
    is_subfilter f f false = .ok true ∧ is_subfilter f f true = .ok false := by
  simp only [wf_filter, Bool.and_eq_true, decide_eq_true_eq, List.all_eq_true] at hf
  obtain ⟨hnd, hvals⟩ := hf
  have hlk : ∀ p ∈ f, List.lookup p.1 f = some p.2 := nodup_lookup_self hnd
  constructor
  · exact is_subfilter_loop_refl_nonstrict f f _ (fun p hp => ⟨hlk p hp, hvals p hp⟩)
  · unfold is_subfilter
    rw [List.dedup_eq_self.mpr hnd]
    exact is_subfilter_loop_refl_strict f f (fun p hp => ⟨hlk p hp, hvals p hp⟩)

/-- C5 witness: the amended reflexivity at a concrete two-field filter
mixing a scalar, bounds and a membership list. -/
theorem is_subfilter_refl_witness :
    is_subfilter [("gid", FValue.scalar (3 : Int)),
        ("win", FValue.ops [("ge", Operand.scalar 1), ("isin", Operand.vals [1, 2])])]
      [("gid", FValue.scalar (3 : Int)),
        ("win", FValue.ops [("ge", Operand.scalar 1), ("isin", Operand.vals [1, 2])])]
      false = .ok true ∧
    is_subfilter [("gid", FValue.scalar (3 : Int)),
        ("win", FValue.ops [("ge", Operand.scalar 1), ("isin", Operand.vals [1, 2])])]
      [("gid", FValue.scalar (3 : Int)),
        ("win", FValue.ops [("ge", Operand.scalar 1), ("isin", Operand.vals [1, 2])])]
      true = .ok false :=
  is_subfilter_refl _ (by decide)

/-- A filter value whose operator mapping stays inside the recognized
operator set with regex excluded (scalar and list values qualify). -/
def good_value : FValue V → Bool
  | .scalar _ => true
  | .vals _ => true
  | .ops m => m.all (fun p => decide (p.1 ∈ comparison_operators ∧ p.1 ≠ "regex"))

/-- A recognized operator other than eq and regex is a subdict operator. -/
theorem mem_subdict_ops_of {k : String} (h : k ∈ comparison_operators)
    (h1 : k ≠ "eq") (h2 : k ≠ "regex") : k ∈ subdict_ops := by
  simp only [comparison_operators, List.mem_cons, List.not_mem_nil, or_false] at h
  rcases h with rfl | rfl | rfl | rfl | rfl | rfl | rfl | rfl <;>
    simp_all [subdict_ops]

/-- Normalizing a good filter value, when it succeeds, yields a dict
whose keys are all subdict operators. -/
theorem to_dict_good_keys [LinearOrder V] {v : FValue V} {d : List (String × Operand V)}
    (hg : good_value v = true) (hto : to_dict v = some d) :
    ∀ p ∈ d, p.1 ∈ subdict_ops := by
  cases v with
  | scalar w =>
    simp only [to_dict, Option.some.injEq] at hto
    subst hto
    intro p hp
    simp only [List.mem_singleton] at hp
    subst hp
    simp [subdict_ops]
  | vals l =>
    simp only [to_dict, Option.some.injEq] at hto
    subst hto
    intro p hp
    simp only [List.mem_singleton] at hp
    subst hp
    simp [subdict_ops]
  | ops m =>
    simp only [good_value, List.all_eq_true, decide_eq_true_eq] at hg
    have hrest : ∀ p ∈ m.filter (fun p => p.1 ≠ "eq"), p.1 ∈ subdict_ops := by
      intro p hp
      have hm := List.mem_filter.mp hp
      obtain ⟨hcmp, hreg⟩ := hg p hm.1
      exact mem_subdict_ops_of hcmp (by simpa using hm.2) hreg
    cases heq : List.lookup "eq" m with
    | none =>
      simp only [to_dict, heq, Option.some.injEq] at hto
      subst hto
      intro p hp
      obtain ⟨hcmp, hreg⟩ := hg p hp
      have hne : p.1 ≠ "eq" := by
        intro hh
        apply lookup_none (b := p.2) heq
        rw [← hh]
        simpa using hp
      exact mem_subdict_ops_of hcmp hne hreg
    | some ev =>
      cases ev with
      | scalar w =>
        cases hisin : List.lookup "isin" m with
        | none =>
          simp only [to_dict, heq, hisin, Option.some.injEq] at hto
          subst hto
          intro p hp
          rcases List.mem_append.mp hp with h1 | h1
          · exact hrest p h1
          · simp only [List.mem_singleton] at h1
            subst h1
            simp [subdict_ops]
        | some io =>
          cases io with
          | scalar u => simp [to_dict, heq, hisin] at hto
          | vals l =>
            simp only [to_dict, heq, hisin, Option.some.injEq] at hto
            subst hto
            intro p hp
            rcases set_isin_mem hp with h1 | h1
            · exact hrest p h1
            · subst h1
              simp [subdict_ops]
      | vals lv =>
        cases hisin : List.lookup "isin" m with
        | none => simp [to_dict, heq, hisin] at hto
        | some io =>
          cases io with
          | scalar u => simp [to_dict, heq, hisin] at hto
          | vals l =>
            simp only [to_dict, heq, hisin, Option.some.injEq] at hto
            subst hto
            intro p hp
            rcases set_isin_mem hp with h1 | h1
            · exact hrest p h1
            · subst h1
              simp [subdict_ops]

/-- The only error one operator test can raise is the TypeError of an
unsupported operand comparison. -/
theorem subdict_matched_error [LinearOrder V] {d1 d2 : List (String × Operand V)}
    {op : String} {e : SubfilterError}
    (h : subdict_matched d1 d2 op = .error e) : e = .typeMismatch := by
  unfold subdict_matched at h
  split at h
  · simp at h
  · split at h
    · simp at h
    · split at h
      · simp at h
      · exact (Except.error.inj h).symm

/-- The only error the subdict loop can raise is the TypeError of an
unsupported operand comparison; in particular never InvalidFilter. -/
theorem subdict_loop_error [LinearOrder V] {d1 d2 : List (String × Operand V)}
    {e : SubfilterError} :
    ∀ {ops : List String}, subdict_loop d1 d2 ops = .error e → e = .typeMismatch := by
  intro ops
  induction ops with
  | nil => intro h; simp [subdict_loop] at h
  | cons op rest ih =>
    intro h
    unfold subdict_loop at h
    split at h
    · rename_i e2 heq
      rw [Except.error.inj h] at heq
      exact subdict_matched_error heq
    · split at h
      · rename_i e2 heq
        rw [Except.error.inj h] at heq
        exact ih heq
      · simp at h

/-- With both dicts using only subdict operator keys, _is_subdict never
raises the InvalidFilter invariant violation. -/
theorem is_subdict_ne_invalid [LinearOrder V] {d1 d2 : List (String × Operand V)}
    (h1 : ∀ p ∈ d1, p.1 ∈ subdict_ops) (h2 : ∀ p ∈ d2, p.1 ∈ subdict_ops) :
    is_subdict d1 d2 ≠ .error .invalidFilter := by
  have ha1 : d1.all (fun p => decide (p.1 ∈ subdict_ops)) = true :=
    List.all_eq_true.mpr (fun p hp => decide_eq_true (h1 p hp))
  have ha2 : d2.all (fun p => decide (p.1 ∈ subdict_ops)) = true :=
    List.all_eq_true.mpr (fun p hp => decide_eq_true (h2 p hp))
  unfold is_subdict
  rw [ha1, ha2]
  simp only [Bool.not_true, Bool.false_eq_true, if_false]
  intro hcontra
  have := subdict_loop_error hcontra
  simp at this

/-- The is_subfilter loop over good values never raises InvalidFilter. -/
theorem is_subfilter_loop_ne_invalid [LinearOrder V] (left : FilterDict V)
    (strict : Bool) (hleft : ∀ p ∈ left, good_value p.2 = true) :
    ∀ (rest : List (String × FValue V)) (diff : List String),
      (∀ p ∈ rest, good_value p.2 = true) →
      is_subfilter_loop left strict rest diff ≠ .error .invalidFilter := by
  intro rest
  induction rest with
  | nil =>
    intro diff _ h
    simp [is_subfilter_loop] at h
  | cons p rest2 ih =>
    intro diff hall h
    obtain ⟨k, v⟩ := p
    cases hlk : List.lookup k left with
    | none =>
      simp [is_subfilter_loop, hlk] at h
    | some lv =>
      have hglv : good_value lv = true := hleft _ (lookup_mem hlk)
      have hgv : good_value v = true := hall (k, v) (List.mem_cons_self _ _)
      cases hdl : to_dict lv with
      | none =>
        simp [is_subfilter_loop, hlk, hdl] at h
      | some dl =>
        cases hdr : to_dict v with
        | none =>
          simp [is_subfilter_loop, hlk, hdl, hdr] at h
        | some dr =>
          simp only [is_subfilter_loop, hlk, hdl, hdr] at h
          by_cases hb : (strict && dict_beq dl dr) = true
          · rw [if_pos hb] at h
            exact ih _ (fun q hq => hall q (List.mem_cons_of_mem _ hq)) h
          · rw [if_neg hb] at h
            cases hsd : is_subdict dl dr with
            | error e =>
              rw [hsd] at h
              have he : e = SubfilterError.invalidFilter := Except.error.inj h
              exact is_subdict_ne_invalid (to_dict_good_keys hglv hdl)
                (to_dict_good_keys hgv hdr) (by rw [hsd, he])
            | ok b =>
              rw [hsd] at h
              cases b
              · simp at h
              · exact ih diff (fun q hq => hall q (List.mem_cons_of_mem _ hq)) h

/-- C6 counterexample: both sides use only the recognized operator regex,
yet is_subfilter fails with the InvalidFilter invariant violation. -/
theorem is_subfilter_regex_invalid :
    is_subfilter [("name", FValue.ops [("regex", Operand.scalar "^s2")])]
      [("name", FValue.ops [("regex", Operand.scalar "^s2")])] false =
      .error .invalidFilter := by
  decide

/-- C6 (amended): the defensive InvalidFilter check lives in the
normalized-dict comparison and its recognized set is ne, le, lt, ge, gt,
isin only: comparing normalized dicts with any key outside that set fails
with InvalidFilter (regex is not exempt, as the counterexample shows),
while filter values using only eq, ne, le, lt, ge, gt, isin never produce
that failure anywhere in is_subfilter. -/
theorem is_subfilter_invalid_filter_scope [LinearOrder V] :
    (∀ d1 d2 : List (String × Operand V),
      (∃ p, (p ∈ d1 ∨ p ∈ d2) ∧ p.1 ∉ subdict_ops) →
      is_subdict d1 d2 = .error .invalidFilter) ∧
    (∀ (left right : FilterDict V) (strict : Bool),
      (∀ p ∈ left, good_value p.2 = true) →
      (∀ p ∈ right, good_value p.2 = true) →
      is_subfilter left right strict ≠ .error .invalidFilter) := by
  constructor
  · rintro d1 d2 ⟨p, hp, hnot⟩
    unfold is_subdict
    by_cases h1 : d1.all (fun q => decide (q.1 ∈ subdict_ops)) = true
    · have h2 : d2.all (fun q => decide (q.1 ∈ subdict_ops)) = false := by
        rcases hp with hp1 | hp2
        · exact absurd (of_decide_eq_true (List.all_eq_true.mp h1 p hp1)) hnot
        · rcases Bool.eq_false_or_eq_true
            (d2.all (fun q => decide (q.1 ∈ subdict_ops))) with ht | hf
          · exact absurd (of_decide_eq_true (List.all_eq_true.mp ht p hp2)) hnot
          · exact hf
      rw [h1, h2]
      rfl
    · have h1f : d1.all (fun q => decide (q.1 ∈ subdict_ops)) = false :=
        Bool.eq_false_iff.mpr h1
      rw [h1f]
      rfl
  · intro left right strict hleft hright
    exact is_subfilter_loop_ne_invalid left strict hleft right _ hright

/-- The success criterion of compare: scalars and lists always succeed,
an operator mapping must be nonempty, recognized and well shaped. -/
def mask_ok : FValue V → Bool
  | .scalar _ => true
  | .vals _ => true
  | .ops m =>
    !m.isEmpty &&
      ((m.map Prod.fst).filter (fun op => op ∉ comparison_operators)).isEmpty &&
      m.all (fun p => op_well_typed p.1 p.2)

/-- The per-row predicate a successful compare evaluates: equality for a
scalar, membership for a list, the conjunction of the per-operator
predicates for an operator mapping. -/
def value_pred [LinearOrder V] (rmatch : V → V → Bool) (v : FValue V) (x : V) : Bool :=
  match v with
  | .scalar w => decide (x = w)
  | .vals l => decide (x ∈ l)
  | .ops m => m.all (fun p => op_pred rmatch p.1 p.2 x)

/-- Mapping an elementwise some-returning function commutes with mapM. -/
theorem mapM_option_eq_map {A B : Type} {f : A → Option B} {g : A → B} :
    ∀ {l : List A}, (∀ a ∈ l, f a = some (g a)) → l.mapM f = some (l.map g) := by
  intro l
  induction l with
  | nil => intro _; rfl
  | cons a rest ih =>
    intro h
    rw [List.mapM_cons, h a (List.mem_cons_self a rest),
      ih (fun b hb => h b (List.mem_cons_of_mem a hb))]
    rfl

/-- mapM fails as soon as one element fails. -/
theorem mapM_option_eq_none {A B : Type} {f : A → Option B} {a : A} (h : f a = none) :
    ∀ {l : List A}, a ∈ l → l.mapM f = none := by
  intro l
  induction l with
  | nil => intro hmem; simp at hmem
  | cons b rest ih =>
    intro hmem
    rw [List.mapM_cons]
    rcases List.mem_cons.mp hmem with h1 | h1
    · rw [h1] at h
      rw [h]
      rfl
    · cases hfb : f b
      · rfl
      · rw [ih h1]
        rfl

/-- all after map is all of the composite. -/
theorem all_map_general {A B : Type} (l : List A) (f : A → B) (p : B → Bool) :
    (l.map f).all p = l.all (fun a => p (f a)) := by
  induction l with
  | nil => rfl
  | cons a rest ih => simp [List.all_cons, ih]

/-- The elementwise AND of the per-function masks is the mask of the
pointwise conjunction. -/
theorem fold_and_maps {A : Type} (obj : List A) (f : A → Bool) (fs : List (A → Bool)) :
    fold_and ((f :: fs).map (fun g => obj.map g)) =
      obj.map (fun x => (f :: fs).all (fun g => g x)) := by
  induction fs generalizing f with
  | nil => simp [fold_and]
  | cons g rest ih =>
    have hz : List.zipWith and (obj.map f) (obj.map g) =
        obj.map (fun x => f x && g x) := by
      rw [List.zipWith_map, List.zipWith_same]
    have h1 : fold_and ((f :: g :: rest).map (fun h2 => obj.map h2)) =
        fold_and (((fun x => f x && g x) :: rest).map (fun h2 => obj.map h2)) := by
      simp only [List.map_cons, fold_and, List.foldl_cons, hz]
    rw [h1, ih]
    apply List.map_congr_left
    intro x _
    simp [Bool.and_assoc]

/-- A compare that passes the mask_ok criterion evaluates the value
predicate on every element. -/
theorem compare_eq_of_mask_ok [LinearOrder V] (rmatch : V → V → Bool)
    (obj : List V) {v : FValue V} (h : mask_ok v = true) :
    compare rmatch obj v = .ok (obj.map (value_pred rmatch v)) := by
  cases v with
  | scalar w => rfl
  | vals l => rfl
  | ops m =>
    simp only [mask_ok, Bool.and_eq_true, List.all_eq_true] at h
    obtain ⟨⟨hne, hsupp⟩, htyped⟩ := h
    have hmm : m.mapM (fun p => apply_op rmatch p.1 p.2 obj) =
        some (m.map (fun p => obj.map (op_pred rmatch p.1 p.2))) :=
      mapM_option_eq_map (fun p hp => by
        unfold apply_op
        rw [if_pos (htyped p hp)])
    cases m with
    | nil => simp at hne
    | cons p0 rest =>
      have hstep : compare rmatch obj (FValue.ops (p0 :: rest)) =
          .ok (fold_and ((p0 :: rest).map (fun p => obj.map (op_pred rmatch p.1 p.2)))) := by
        simp only [compare]
        rw [if_neg (by simp), if_pos hsupp, hmm]
      rw [hstep]
      have hmaps : (p0 :: rest).map (fun p => obj.map (op_pred rmatch p.1 p.2)) =
          ((fun x => op_pred rmatch p0.1 p0.2 x) ::
            rest.map (fun p x => op_pred rmatch p.1 p.2 x)).map (fun g => obj.map g) := by
        simp [List.map_map]
      rw [hmaps, fold_and_maps]
      congr 1
      apply List.map_congr_left
      intro x _
      simp only [value_pred, List.all_cons]
      rw [all_map_general]

/-- A compare that fails the mask_ok criterion raises. -/
theorem compare_error_of_not_mask_ok [LinearOrder V] (rmatch : V → V → Bool)
    (obj : List V) {v : FValue V} (h : mask_ok v = false) :
    ∃ e, compare rmatch obj v = .error e := by
  cases v with
  | scalar w => simp [mask_ok] at h
  | vals l => simp [mask_ok] at h
  | ops m =>
    by_cases hne : m.isEmpty = true
    · refine ⟨.invalidFilter, ?_⟩
      simp only [compare]
      rw [if_pos hne]
    · by_cases hsupp :
        ((m.map Prod.fst).filter (fun op => op ∉ comparison_operators)).isEmpty = true
      · have hne2 : m.isEmpty = false := Bool.eq_false_iff.mpr hne
        have htyped : ¬(m.all (fun p => op_well_typed p.1 p.2) = true) := by
          intro hc
          have hmo : mask_ok (FValue.ops m) = true := by
            simp only [mask_ok, Bool.and_eq_true]
            exact ⟨⟨by simp [hne2], hsupp⟩, hc⟩
          rw [hmo] at h
          simp at h
        have hex : ∃ p ∈ m, op_well_typed p.1 p.2 = false := by
          by_contra hcon
          push_neg at hcon
          exact htyped (List.all_eq_true.mpr (fun p hp => by
            rcases Bool.eq_false_or_eq_true (op_well_typed p.1 p.2) with ht | hf
            · exact ht
            · exact absurd hf (hcon p hp)))
        obtain ⟨p, hp, hpt⟩ := hex
        refine ⟨.typeMismatch, ?_⟩
        simp only [compare]
        rw [if_neg hne, if_pos hsupp,
          mapM_option_eq_none (a := p) (by unfold apply_op; rw [if_neg (by simp [hpt])]) hp]
      · refine ⟨.unsupportedOperator
          ((m.map Prod.fst).filter (fun op => op ∉ comparison_operators)), ?_⟩
        simp only [compare]
        rw [if_neg hne, if_neg hsupp]

/-- C7: for every 1-D input, compare with an empty operator mapping
fails with the empty-filter ValueError; with a mapping containing keys
outside the recognized operator set it fails with the unsupported-operator
ValueError naming exactly the offending keys in order; and with a
nonempty mapping of recognized, well-shaped operators it returns the
elementwise AND of the per-operator masks. -/
theorem compare_operator_mapping [LinearOrder V] (rmatch : V → V → Bool) (obj : List V) :
    (compare rmatch obj (FValue.ops []) = .error .invalidFilter) ∧
    (∀ m : List (String × Operand V), m ≠ [] →
      (m.map Prod.fst).filter (fun op => op ∉ comparison_operators) ≠ [] →
      compare rmatch obj (.ops m) = .error (.unsupportedOperator
        ((m.map Prod.fst).filter (fun op => op ∉ comparison_operators)))) ∧
    (∀ m : List (String × Operand V), m ≠ [] →
      (∀ p ∈ m, p.1 ∈ comparison_operators) →
      (∀ p ∈ m, op_well_typed p.1 p.2 = true) →
      compare rmatch obj (.ops m) =
        .ok (obj.map (fun x => m.all (fun p => op_pred rmatch p.1 p.2 x)))) := by
  refine ⟨rfl, fun m hm hbad => ?_, fun m hm hrec htyped => ?_⟩
  · simp only [compare]
    rw [if_neg (by rw [List.isEmpty_iff]; exact hm),
      if_neg (by rw [List.isEmpty_iff]; exact hbad)]
  · have hmo : mask_ok (FValue.ops m) = true := by
      simp only [mask_ok, Bool.and_eq_true]
      refine ⟨⟨by simp [List.isEmpty_iff, hm], ?_⟩, List.all_eq_true.mpr htyped⟩
      rw [List.isEmpty_iff, List.filter_eq_nil_iff]
      intro op hop
      obtain ⟨p, hp, hp1⟩ := List.mem_map.mp hop
      simp [← hp1, hrec p hp]
    simpa [value_pred] using compare_eq_of_mask_ok rmatch obj hmo

/-- An empty dict anywhere in the query list is simply skipped by the
and/or mask loop. -/
theorem and_or_mask_loop_skip_empty
    (ff : FilterDict V → Except QueryError (List (List Bool)))
    (l1 l2 : List (FilterDict V)) :
    and_or_mask_loop ff (l1 ++ [] :: l2) = and_or_mask_loop ff (l1 ++ l2) := by
  induction l1 with
  | nil => rfl
  | cons q l1a ih => simp only [List.cons_append, and_or_mask_loop, List.append_eq, ih]

/-- An empty dict anywhere in the query list is simply skipped by the
and/or mask. -/
theorem and_or_mask_skip_empty
    (ff : FilterDict V → Except QueryError (List (List Bool)))
    (l1 l2 : List (FilterDict V)) :
    and_or_mask ff (l1 ++ [] :: l2) = and_or_mask ff (l1 ++ l2) := by
  unfold and_or_mask
  rw [and_or_mask_loop_skip_empty]

/-- A query list of only empty dicts builds no mask at all. -/
theorem and_or_mask_all_empty
    (ff : FilterDict V → Except QueryError (List (List Bool)))
    (ql : List (FilterDict V)) (h : ∀ q ∈ ql, q = []) :
    and_or_mask ff ql = .ok none := by
  have hloop : ∀ ql2 : List (FilterDict V), (∀ q ∈ ql2, q = []) →
      and_or_mask_loop ff ql2 = .ok [] := by
    intro ql2
    induction ql2 with
    | nil => intro _; rfl
    | cons q rest ih =>
      intro h2
      have hq : q = [] := h2 q (List.mem_cons_self q rest)
      have hrest := ih (fun q2 hq2 => h2 q2 (List.mem_cons_of_mem _ hq2))
      simp [and_or_mask_loop, hq, hrest]
  unfold and_or_mask
  rw [hloop ql h]
  rfl

/-- C3 counterexample: with the query list made of an empty dict and a
dict selecting value 1 in column a, query_frame keeps only the matching
row instead of every row: the empty dict is skipped from the OR rather
than making it true. -/
theorem query_frame_empty_dict_not_all :
    query_frame (fun _ _ => false)
      (Table.mk ["a"] [] [([1], []), ([2], [])] : Table Int)
      [[], [("a", FValue.scalar 1)]] =
      .ok (Table.mk ["a"] [] [([1], [])]) ∧
    (Table.mk ["a"] [] [([(1 : Int)], [])]) ≠
      Table.mk ["a"] [] [([1], []), ([2], [])] := by
  constructor
  · decide
  · decide

/-- C3 (amended): an empty filter dictionary inside a query list is
skipped and contributes nothing to the OR; query_frame and query_series
return every row exactly in the degenerate situation where every
dictionary of the list is empty (no mask is built and the input is
returned unchanged). -/
theorem query_empty_dict_skipped [LinearOrder V] [Inhabited V] (rmatch : V → V → Bool) :
    (∀ (t : Table V) (l1 l2 : List (FilterDict V)),
      query_frame rmatch t (l1 ++ [] :: l2) = query_frame rmatch t (l1 ++ l2)) ∧
    (∀ (s : Series V) (l1 l2 : List (FilterDict V)),
      query_series rmatch s (l1 ++ [] :: l2) = query_series rmatch s (l1 ++ l2)) ∧
    (∀ (t : Table V) (ql : List (FilterDict V)), (∀ q ∈ ql, q = []) →
      query_frame rmatch t ql = .ok t) ∧
    (∀ (s : Series V) (ql : List (FilterDict V)), (∀ q ∈ ql, q = []) →
      query_series rmatch s ql = .ok s) := by
  refine ⟨fun t l1 l2 => ?_, fun s l1 l2 => ?_, fun t ql h => ?_, fun s ql h => ?_⟩
  · unfold query_frame
    rw [and_or_mask_skip_empty]
  · unfold query_series
    rw [and_or_mask_skip_empty]
  · unfold query_frame
    rw [and_or_mask_all_empty _ _ h]
  · unfold query_series
    rw [and_or_mask_all_empty _ _ h]

/-- A reorder failure of one later operand aborts the alignment pass,
whatever comes before (provided it matches the captured order) and
after. -/
theorem ordered_fold_mid_error [Inhabited V] {ord : List (Option String)}
    {o : PIndexed V} {rest : List (PIndexed V)} {e : ConcatError}
    (hne : ord ≠ o.levelNames) (herr : reorder_levels o ord = .error e) :
    ∀ (mid : List (PIndexed V)), (∀ x ∈ mid, x.levelNames = ord) →
      ordered_fold (some ord) (mid ++ o :: rest) = .error e := by
  intro mid
  induction mid with
  | nil =>
    intro _
    simp only [List.nil_append, ordered_fold]
    rw [if_neg hne, herr]
    rfl
  | cons x mid2 ih =>
    intro hall
    have hx : x.levelNames = ord := hall x (List.mem_cons_self x mid2)
    have htail := ih (fun y hy => hall y (List.mem_cons_of_mem _ hy))
    have hstep : ordered_fold (some ord) ((x :: mid2) ++ o :: rest) =
        (ordered_fold (some ord) (mid2 ++ o :: rest)).bind
          (fun tail => Except.ok (x :: tail)) := by
      simp only [List.cons_append, ordered_fold]
      rw [if_pos hx.symm]
      rfl
    rw [hstep, htail]
    rfl

/-- The same failure propagated through smart_concat. -/
theorem smart_concat_mid_error [Inhabited V] {o1 o : PIndexed V}
    {rest : List (PIndexed V)} {e : ConcatError} {se : Bool}
    (hne : o1.levelNames ≠ o.levelNames)
    (herr : reorder_levels o o1.levelNames = .error e)
    (mid : List (PIndexed V)) (hmid : ∀ x ∈ mid, x.levelNames = o1.levelNames) :
    smart_concat (o1 :: (mid ++ o :: rest)) se = .error e := by
  unfold smart_concat
  simp only [ordered_fold, ordered_fold_mid_error hne herr mid hmid]
  rfl

/-- C8: smart_concat rejects, while aligning a later operand with the
first one, an operand whose index has a different number of levels
(reporting that operand's level count as expected and the first
operand's as got), and an operand whose index is missing level names of
the first operand (naming the missing levels). -/
theorem smart_concat_level_errors [Inhabited V] :
    (∀ (o1 o : PIndexed V) (mid rest : List (PIndexed V)) (se : Bool),
      (∀ x ∈ mid, x.levelNames = o1.levelNames) →
      o.levelNames.length ≠ o1.levelNames.length →
      smart_concat (o1 :: (mid ++ o :: rest)) se =
        .error (.lengthMismatch o.levelNames.length o1.levelNames.length)) ∧
    (∀ (o1 o : PIndexed V) (mid rest : List (PIndexed V)) (se : Bool),
      (∀ x ∈ mid, x.levelNames = o1.levelNames) →
      o.levelNames.length = o1.levelNames.length →
      (o1.levelNames.filter (fun n => n ∉ o.levelNames)).dedup ≠ [] →
      smart_concat (o1 :: (mid ++ o :: rest)) se =
        .error (.levelsNotFound ((o1.levelNames.filter (fun n => n ∉ o.levelNames)).dedup))) := by
  constructor
  · intro o1 o mid rest se hmid hlen
    have hne : o1.levelNames ≠ o.levelNames := by
      intro hcon
      exact hlen (by rw [hcon])
    have herr : reorder_levels o o1.levelNames =
        .error (.lengthMismatch o.levelNames.length o1.levelNames.length) := by
      unfold reorder_levels
      rw [if_pos (Ne.symm hlen)]
    exact smart_concat_mid_error hne herr mid hmid
  · intro o1 o mid rest se hmid hlen hmiss
    have hne : o1.levelNames ≠ o.levelNames := by
      intro hcon
      apply hmiss
      rw [hcon]
      have : o.levelNames.filter (fun n => n ∉ o.levelNames) = [] :=
        List.filter_eq_nil_iff.mpr (fun a ha => by simp [ha])
      rw [this]
      rfl
    have herr : reorder_levels o o1.levelNames =
        .error (.levelsNotFound ((o1.levelNames.filter (fun n => n ∉ o.levelNames)).dedup)) := by
      unfold reorder_levels
      rw [if_neg (by intro hc; exact hc hlen.symm),
        if_neg (by rw [List.isEmpty_iff]; exact hmiss)]
    exact smart_concat_mid_error hne herr mid hmid

/-- One field is applicable to a table with the given names: its name
resolves to a column or an index level and its value passes compare. -/
def field_ok (cn : List String) (ln : List (Option String))
    (p : String × FValue V) : Bool :=
  (resolve_names cn ln p.1).isSome && mask_ok p.2

/-- The per-row predicate of one applicable query field. -/
def row_pred [LinearOrder V] [Inhabited V] (rmatch : V → V → Bool)
    (cn : List String) (ln : List (Option String)) (p : String × FValue V)
    (r : List V × List V) : Bool :=
  match resolve_names cn ln p.1 with
  | some loc => value_pred rmatch p.2 (cell_at r loc)
  | none => false

/-- Rows filtered by a sequence of query fields, one after the other. -/
def apply_pairs [LinearOrder V] [Inhabited V] (rmatch : V → V → Bool)
    (cn : List String) (ln : List (Option String)) (rows : List (List V × List V))
    (ps : List (String × FValue V)) : List (List V × List V) :=
  ps.foldl (fun rs p => rs.filter (row_pred rmatch cn ln p)) rows

/-- The (key, value) pairs of the cache stack, in order. -/
def stack_pairs (stack : List (CachedItem V)) : List (String × FValue V) :=
  stack.map (fun it => (it.key, it.value))

/-- The chain invariant of the cache stack: every entry holds the table
obtained by filtering its predecessor's table (the base for the first
entry) by its own key and value. -/
def stack_chain [LinearOrder V] [Inhabited V] (rmatch : V → V → Bool) :
    Table V → List (CachedItem V) → Prop
  | _, [] => True
  | df, it :: rest =>
    etl_q rmatch df [(it.key, it.value)] = .ok it.df ∧ stack_chain rmatch it.df rest

/-- Selecting by the mask of a pointwise predicate is filtering. -/
theorem select_mask_map {R : Type} (rows : List R) (p : R → Bool) :
    select_mask rows (rows.map p) = rows.filter p := by
  induction rows with
  | nil => rfl
  | cons r rest ih =>
    simp only [select_mask, List.map_cons, List.zip_cons_cons, List.filterMap_cons] at *
    cases hp : p r <;> simp [hp, ih, List.filter_cons]

/-- The and/or mask of a single nonempty dict is the AND of its field
masks. -/
theorem and_or_mask_single (ff : FilterDict V → Except QueryError (List (List Bool)))
    (q : FilterDict V) (hq : q ≠ []) :
    and_or_mask ff [q] =
      match ff q with
      | .error e => .error e
      | .ok ams => .ok (some (fold_and ams)) := by
  have hne : q.isEmpty = false := by
    rw [← Bool.not_eq_true, List.isEmpty_iff]
    exact hq
  unfold and_or_mask and_or_mask_loop
  rw [hne]
  cases hffq : ff q with
  | error e => simp
  | ok ams => simp [and_or_mask_loop, fold_or]

/-- query_frame of a single nonempty dict filters by the AND of the
field masks. -/
theorem query_frame_single [LinearOrder V] [Inhabited V] (rmatch : V → V → Bool)
    (t : Table V) (q : FilterDict V) (hq : q ≠ []) :
    query_frame rmatch t [q] =
      match filter_func rmatch t q with
      | .error e => .error e
      | .ok masks => .ok { t with rows := select_mask t.rows (fold_and masks) } := by
  unfold query_frame
  rw [and_or_mask_single _ q hq]
  cases hffq : filter_func rmatch t q <;> rfl

/-- etl.q of a single field resolves the name, compares, and selects. -/
theorem etl_q_pair [LinearOrder V] [Inhabited V] (rmatch : V → V → Bool)
    (t : Table V) (k : String) (v : FValue V) :
    etl_q rmatch t [(k, v)] =
      match resolve_names t.colNames t.levelNames k with
      | none => .error (.keyError k)
      | some loc =>
        match compare rmatch (series_of t loc) v with
        | .error e => .error e
        | .ok mask => .ok { t with rows := select_mask t.rows mask } := by
  rw [etl_q, query_frame_single rmatch t _ (by simp)]
  cases hres : resolve_names t.colNames t.levelNames k with
  | none =>
    have hff : filter_func rmatch t [(k, v)] = .error (.keyError k) := by
      simp [filter_func, resolve_locs, hres]
    rw [hff]
  | some loc =>
    obtain ⟨b, i⟩ := loc
    have hloc : resolve_locs t.colNames t.levelNames [(k, v)] =
        .ok [((k, v), (b, i))] := by
      simp [resolve_locs, hres]
    have hmask : filter_func rmatch t [(k, v)] =
        match compare rmatch (series_of t (b, i)) v with
        | .error er => .error er
        | .ok mask => .ok [mask] := by
      cases b <;> simp [filter_func, hloc, masks_of, List.filter_cons]
    have hgen : ∀ X : Except QueryError (List Bool),
        (match (match X with
          | .error er => Except.error er
          | .ok mask => Except.ok [mask] : Except QueryError (List (List Bool))) with
        | .error e => Except.error e
        | .ok masks =>
          Except.ok { t with rows := select_mask t.rows (fold_and masks) }) =
        (match X with
        | .error e => Except.error e
        | .ok mask => Except.ok { t with rows := select_mask t.rows mask }) := by
      intro X
      cases X <;> rfl
    rw [hmask]
    exact hgen (compare rmatch (series_of t (b, i)) v)

/-- Every pair of the left dict of a successful dict_beq is in the right
one. -/
theorem dict_beq_mem_left {B : Type} [DecidableEq B] {d1 d2 : List (String × B)}
    (h : dict_beq d1 d2 = true) : ∀ p ∈ d1, p ∈ d2 := by
  intro p hp
  simp only [dict_beq, Bool.and_eq_true, List.all_eq_true] at h
  exact lookup_mem (by simpa using h.1 p hp)

/-- Every pair of the right dict of a successful dict_beq is in the left
one. -/
theorem dict_beq_mem_right {B : Type} [DecidableEq B] {d1 d2 : List (String × B)}
    (h : dict_beq d1 d2 = true) : ∀ p ∈ d2, p ∈ d1 := by
  intro p hp
  simp only [dict_beq, Bool.and_eq_true, List.all_eq_true] at h
  exact lookup_mem (by simpa using h.2 p hp)

/-- Python-equal filter values evaluate to the same row predicate. -/
theorem value_pred_congr [LinearOrder V] (rmatch : V → V → Bool) {v v2 : FValue V}
    (h : py_eq v v2 = true) : value_pred rmatch v = value_pred rmatch v2 := by
  funext x
  cases v with
  | scalar a =>
    cases v2 with
    | scalar b =>
      have hab : a = b := by simpa [py_eq] using h
      simp [value_pred, hab]
    | vals l => simp [py_eq] at h
    | ops m => simp [py_eq] at h
  | vals l =>
    cases v2 with
    | scalar b => simp [py_eq] at h
    | vals l2 =>
      have hl : l = l2 := by simpa [py_eq] using h
      simp [value_pred, hl]
    | ops m => simp [py_eq] at h
  | ops m =>
    cases v2 with
    | scalar b => simp [py_eq] at h
    | vals l2 => simp [py_eq] at h
    | ops m2 =>
      have hb : dict_beq m m2 = true := by simpa [py_eq] using h
      have h1 := dict_beq_mem_left hb
      have h2 := dict_beq_mem_right hb
      simp only [value_pred]
      rw [Bool.eq_iff_iff]
      simp only [List.all_eq_true]
      constructor
      · intro hh p hp
        exact hh p (h2 p hp)
      · intro hh p hp
        exact hh p (h1 p hp)

/-- A dict with the same members as one that passes the compare
criterion passes it as well. -/
theorem mask_ok_ops_of_mem [LinearOrder V] {m m2 : List (String × Operand V)}
    (hsub : ∀ p ∈ m2, p ∈ m) (hsub2 : ∀ p ∈ m, p ∈ m2)
    (hm : mask_ok (FValue.ops m) = true) : mask_ok (FValue.ops m2) = true := by
  cases m with
  | nil => simp [mask_ok] at hm
  | cons p0 mr =>
    simp only [mask_ok, Bool.and_eq_true] at hm
    obtain ⟨⟨hA, hB⟩, hC⟩ := hm
    cases m2 with
    | nil => exact absurd (hsub2 p0 (List.mem_cons_self p0 mr)) (List.not_mem_nil p0)
    | cons q0 m2r =>
      simp only [mask_ok, Bool.and_eq_true]
      rw [List.isEmpty_iff, List.filter_eq_nil_iff] at hB
      refine ⟨⟨by simp, ?_⟩, ?_⟩
      · rw [List.isEmpty_iff, List.filter_eq_nil_iff]
        intro k hk
        obtain ⟨p, hp, hpk⟩ := List.mem_map.mp hk
        exact hB k (hpk ▸ List.mem_map_of_mem Prod.fst (hsub p hp))
      · rw [List.all_eq_true] at hC ⊢
        intro p hp
        exact hC p (hsub p hp)

/-- Python-equal filter values succeed or fail compare together. -/
theorem mask_ok_congr [LinearOrder V] {v v2 : FValue V}
    (h : py_eq v v2 = true) : mask_ok v = mask_ok v2 := by
  cases v with
  | scalar a =>
    cases v2 with
    | scalar b => rfl
    | vals l => simp [py_eq] at h
    | ops m => simp [py_eq] at h
  | vals l =>
    cases v2 with
    | scalar b => simp [py_eq] at h
    | vals l2 => rfl
    | ops m => simp [py_eq] at h
  | ops m =>
    cases v2 with
    | scalar b => simp [py_eq] at h
    | vals l2 => simp [py_eq] at h
    | ops m2 =>
      have hb : dict_beq m m2 = true := by simpa [py_eq] using h
      have h1 := dict_beq_mem_left hb
      have h2 := dict_beq_mem_right hb
      rw [Bool.eq_iff_iff]
      exact ⟨fun hm => mask_ok_ops_of_mem h2 h1 hm,
        fun hm => mask_ok_ops_of_mem h1 h2 hm⟩

/-- Fields with the same name and Python-equal values filter rows the
same way. -/
theorem row_pred_congr [LinearOrder V] [Inhabited V] (rmatch : V → V → Bool)
    (cn : List String) (ln : List (Option String)) {p p2 : String × FValue V}
    (hk : p.1 = p2.1) (hv : py_eq p.2 p2.2 = true) :
    row_pred rmatch cn ln p = row_pred rmatch cn ln p2 := by
  funext r
  unfold row_pred
  rw [hk]
  cases hres : resolve_names cn ln p2.1 <;>
    simp [hres, value_pred_congr rmatch hv]

/-- Fields with the same name and Python-equal values are applicable to
the same tables. -/
theorem field_ok_congr [LinearOrder V] (cn : List String) (ln : List (Option String))
    {p p2 : String × FValue V} (hk : p.1 = p2.1) (hv : py_eq p.2 p2.2 = true) :
    field_ok cn ln p = field_ok cn ln p2 := by
  unfold field_ok
  rw [hk, mask_ok_congr hv]

/-- The matching prefixes of the pairwise match count are equal keywise
and Python-equal valuewise. -/
theorem pair_match_count_take [DecidableEq V] :
    ∀ (xs ys : List (String × FValue V)),
      List.Forall₂ (fun a b => a.1 = b.1 ∧ py_eq a.2 b.2 = true)
        (xs.take (pair_match_count xs ys)) (ys.take (pair_match_count xs ys)) := by
  intro xs
  induction xs with
  | nil => intro ys; simp [pair_match_count]
  | cons x xsr ih =>
    intro ys
    cases ys with
    | nil => simp [pair_match_count]
    | cons y ysr =>
      by_cases hxy : x.1 = y.1 ∧ py_eq x.2 y.2 = true
      · simp only [pair_match_count, if_pos hxy, List.take_succ_cons]
        exact List.Forall₂.cons hxy (ih ysr)
      · simp [pair_match_count, if_neg hxy]

/-- The pairwise match count never exceeds either length. -/
theorem pair_match_count_le [DecidableEq V] :
    ∀ (xs ys : List (String × FValue V)),
      pair_match_count xs ys ≤ xs.length ∧ pair_match_count xs ys ≤ ys.length := by
  intro xs
  induction xs with
  | nil => intro ys; simp [pair_match_count]
  | cons x xsr ih =>
    intro ys
    cases ys with
    | nil => simp [pair_match_count]
    | cons y ysr =>
      by_cases hxy : x.1 = y.1 ∧ py_eq x.2 y.2 = true
      · simp only [pair_match_count, if_pos hxy, List.length_cons]
        exact ⟨Nat.succ_le_succ (ih ysr).1, Nat.succ_le_succ (ih ysr).2⟩
      · simp [pair_match_count, if_neg hxy]

/-- Every member of the right side of a Forall₂ has a related member on
the left. -/
theorem forall2_exists_left {A B : Type} {R : A → B → Prop} :
    ∀ {l1 : List A} {l2 : List B}, List.Forall₂ R l1 l2 →
      ∀ y ∈ l2, ∃ x ∈ l1, R x y := by
  intro l1 l2 h
  induction h with
  | nil => intro y hy; simp at hy
  | cons hab hrest ih =>
    intro y hy
    rcases List.mem_cons.mp hy with h1 | h1
    · exact ⟨_, List.mem_cons_self _ _, h1 ▸ hab⟩
    · obtain ⟨x, hx, hr⟩ := ih y h1
      exact ⟨x, List.mem_cons_of_mem _ hx, hr⟩

/-- Sequential filtering is invariant under replacing the fields by
namewise-equal, Python-equal ones. -/
theorem apply_pairs_congr [LinearOrder V] [Inhabited V] (rmatch : V → V → Bool)
    (cn : List String) (ln : List (Option String))
    {ps ps2 : List (String × FValue V)}
    (h : List.Forall₂ (fun a b => a.1 = b.1 ∧ py_eq a.2 b.2 = true) ps ps2) :
    ∀ rows, apply_pairs rmatch cn ln rows ps = apply_pairs rmatch cn ln rows ps2 := by
  induction h with
  | nil => intro rows; rfl
  | cons hab hrest ih =>
    intro rows
    show apply_pairs rmatch cn ln (rows.filter _) _ = apply_pairs rmatch cn ln (rows.filter _) _
    rw [row_pred_congr rmatch cn ln hab.1 hab.2]
    exact ih _

/-- A single applicable field filters the rows by its row predicate and
keeps the table names. -/
theorem etl_q_pair_ok [LinearOrder V] [Inhabited V] (rmatch : V → V → Bool)
    {t : Table V} {k : String} {v : FValue V} {loc : Bool × Nat}
    (hres : resolve_names t.colNames t.levelNames k = some loc)
    (hmo : mask_ok v = true) :
    etl_q rmatch t [(k, v)] = .ok ⟨t.colNames, t.levelNames,
      t.rows.filter (row_pred rmatch t.colNames t.levelNames (k, v))⟩ := by
  rw [etl_q_pair, hres]
  show (match compare rmatch (series_of t loc) v with
    | Except.error e => Except.error e
    | Except.ok mask => Except.ok { t with rows := select_mask t.rows mask }) = _
  rw [compare_eq_of_mask_ok rmatch _ hmo]
  have h1 : (series_of t loc).map (value_pred rmatch v) =
      t.rows.map (fun r => value_pred rmatch v (cell_at r loc)) := by
    simp [series_of, List.map_map, Function.comp]
  have h2 : t.rows.filter (fun r => value_pred rmatch v (cell_at r loc)) =
      t.rows.filter (row_pred rmatch t.colNames t.levelNames (k, v)) :=
    List.filter_congr (fun r _ => by simp [row_pred, hres])
  rw [h1]
  show Except.ok { t with rows :=
    (select_mask t.rows (t.rows.map (fun r => value_pred rmatch v (cell_at r loc)))) } = _
  rw [select_mask_map, h2]

/-- A successful single-field etl.q means the field was applicable and
the result is the row-predicate filter of the input. -/
theorem etl_q_pair_ok_inv [LinearOrder V] [Inhabited V] (rmatch : V → V → Bool)
    {t u : Table V} {k : String} {v : FValue V}
    (h : etl_q rmatch t [(k, v)] = .ok u) :
    field_ok t.colNames t.levelNames (k, v) = true ∧
    u = ⟨t.colNames, t.levelNames,
      t.rows.filter (row_pred rmatch t.colNames t.levelNames (k, v))⟩ := by
  cases hres : resolve_names t.colNames t.levelNames k with
  | none =>
    rw [etl_q_pair, hres] at h
    simp at h
  | some loc =>
    rcases Bool.eq_false_or_eq_true (mask_ok v) with hmo | hmo
    · constructor
      · simp [field_ok, hres, hmo]
      · have heq := etl_q_pair_ok rmatch hres hmo
        rw [heq] at h
        exact (Except.ok.inj h).symm
    · obtain ⟨e, he⟩ := compare_error_of_not_mask_ok rmatch (series_of t loc) hmo
      rw [etl_q_pair, hres] at h
      simp only [he] at h
      simp at h

/-- Dropping to the tail view after the first stack entry. -/
theorem last_table_cons (base : Table V) (it : CachedItem V)
    (rest : List (CachedItem V)) :
    last_table base (it :: rest) = last_table it.df rest := by
  cases rest with
  | nil => rfl
  | cons it2 rest2 =>
    simp only [last_table, List.getLast?_cons_cons]
    cases h : (it2 :: rest2).getLast? with
    | none =>
      rw [List.getLast?_eq_none_iff] at h
      simp at h
    | some it3 => rfl

/-- A prefix of a chained stack is chained. -/
theorem stack_chain_take [LinearOrder V] [Inhabited V] (rmatch : V → V → Bool) :
    ∀ (stack : List (CachedItem V)) (base : Table V) (n : Nat),
      stack_chain rmatch base stack → stack_chain rmatch base (stack.take n) := by
  intro stack
  induction stack with
  | nil =>
    intro base n _
    rw [List.take_nil]
    trivial
  | cons it rest ih =>
    intro base n h
    cases n with
    | zero =>
      rw [List.take_zero]
      trivial
    | succ n2 =>
      rw [List.take_succ_cons]
      exact ⟨h.1, ih it.df n2 h.2⟩

/-- What the chain invariant says about the whole stack: every stacked
field is applicable to the base table, and the top view is the base
filtered by all stacked fields in order. -/
theorem stack_chain_spec [LinearOrder V] [Inhabited V] (rmatch : V → V → Bool) :
    ∀ (stack : List (CachedItem V)) (base : Table V),
      stack_chain rmatch base stack →
      (∀ p ∈ stack_pairs stack, field_ok base.colNames base.levelNames p = true) ∧
      last_table base stack = ⟨base.colNames, base.levelNames,
        apply_pairs rmatch base.colNames base.levelNames base.rows
          (stack_pairs stack)⟩ := by
  intro stack
  induction stack with
  | nil =>
    intro base _
    constructor
    · intro p hp
      simp [stack_pairs] at hp
    · simp [last_table, apply_pairs, stack_pairs]
  | cons it rest ih =>
    intro base h
    obtain ⟨h1, h2⟩ := h
    obtain ⟨hfo, hdf⟩ := etl_q_pair_ok_inv rmatch h1
    obtain ⟨ihf, ihl⟩ := ih it.df h2
    constructor
    · intro p hp
      rcases List.mem_cons.mp hp with hp1 | hp1
      · rw [hp1]
        exact hfo
      · have := ihf p hp1
        rw [hdf] at this
        exact this
    · rw [last_table_cons, ihl, hdf]
      rfl

/-- A successful extension loop applied every remaining field in order,
and each of those fields was applicable to the starting view. -/
theorem extend_loop_ok [LinearOrder V] [Inhabited V] (rmatch : V → V → Bool) :
    ∀ (ps : List (String × FValue V)) (df0 : Table V) (acc : List (CachedItem V))
      (r : Table V) (st2 : List (CachedItem V)),
      extend_loop rmatch ps df0 acc = (.ok r, st2) →
      r = ⟨df0.colNames, df0.levelNames,
        apply_pairs rmatch df0.colNames df0.levelNames df0.rows ps⟩ ∧
      (∀ p ∈ ps, field_ok df0.colNames df0.levelNames p = true) := by
  intro ps
  induction ps with
  | nil =>
    intro df0 acc r st2 h
    simp only [extend_loop, Prod.mk.injEq] at h
    constructor
    · rw [← (Except.ok.inj h.1)]
      rfl
    · simp
  | cons p rest ih =>
    intro df0 acc r st2 h
    cases hq : etl_q rmatch df0 [p] with
    | error e => simp [extend_loop, hq] at h
    | ok df2 =>
      simp only [extend_loop, hq] at h
      obtain ⟨hfo, hdf2⟩ := etl_q_pair_ok_inv rmatch (t := df0) (k := p.1) (v := p.2) hq
      obtain ⟨ihr, ihf⟩ := ih df2 _ r st2 h
      constructor
      · rw [ihr, hdf2]
        rfl
      · intro q2 hq2
        rcases List.mem_cons.mp hq2 with h1 | h1
        · rw [h1]
          exact hfo
        · have h2 := ihf q2 h1
          rw [hdf2] at h2
          exact h2

/-- Appending a freshly filtered view to a chained stack keeps it
chained. -/
theorem stack_chain_append [LinearOrder V] [Inhabited V] (rmatch : V → V → Bool) :
    ∀ (acc : List (CachedItem V)) (base df2 : Table V) (k : String) (v : FValue V),
      stack_chain rmatch base acc →
      etl_q rmatch (last_table base acc) [(k, v)] = .ok df2 →
      stack_chain rmatch base (acc ++ [CachedItem.mk df2 k v]) := by
  intro acc
  induction acc with
  | nil =>
    intro base df2 k v _ hq
    exact ⟨hq, trivial⟩
  | cons it acc2 ih =>
    intro base df2 k v hch hq
    rw [last_table_cons] at hq
    exact ⟨hch.1, ih it.df df2 k v hch.2 hq⟩

/-- The extension loop leaves a chained stack, whether it succeeds or
stops at an error. -/
theorem extend_loop_chain [LinearOrder V] [Inhabited V] (rmatch : V → V → Bool) :
    ∀ (ps : List (String × FValue V)) (base df0 : Table V)
      (acc : List (CachedItem V)),
      stack_chain rmatch base acc → last_table base acc = df0 →
      stack_chain rmatch base (extend_loop rmatch ps df0 acc).2 := by
  intro ps
  induction ps with
  | nil =>
    intro base df0 acc hch _
    simpa [extend_loop] using hch
  | cons p rest ih =>
    intro base df0 acc hch hlast
    cases hq : etl_q rmatch df0 [p] with
    | error e =>
      simp only [extend_loop, hq]
      exact hch
    | ok df2 =>
      simp only [extend_loop, hq]
      apply ih base df2 (acc ++ [CachedItem.mk df2 p.1 p.2])
      · apply stack_chain_append rmatch acc base df2 p.1 p.2 hch
        rw [hlast]
        exact hq
      · simp [last_table, List.getLast?_concat]

/-- A query call keeps the base table and the chain invariant. -/
theorem query_preserves_chain [LinearOrder V] [Inhabited V] (rmatch : V → V → Bool)
    (s : CachedDataFrame V) (q : FilterDict V) (ig : Bool)
    (h : stack_chain rmatch s.base s.stack) :
    (CachedDataFrame.query rmatch s q ig).2.base = s.base ∧
    stack_chain rmatch s.base (CachedDataFrame.query rmatch s q ig).2.stack := by
  constructor
  · rfl
  · show stack_chain rmatch s.base
      (extend_loop rmatch
        ((if ig then q.filter (fun p => p.1 ∈ s.base.valid_keys) else q).drop
          (matched_count s.stack
            ((if ig then q.filter (fun p => p.1 ∈ s.base.valid_keys) else q).map Prod.fst)
            ((if ig then q.filter (fun p => p.1 ∈ s.base.valid_keys) else q).map Prod.snd)))
        (last_table s.base (s.stack.take (matched_count s.stack
            ((if ig then q.filter (fun p => p.1 ∈ s.base.valid_keys) else q).map Prod.fst)
            ((if ig then q.filter (fun p => p.1 ∈ s.base.valid_keys) else q).map Prod.snd))))
        (s.stack.take (matched_count s.stack
            ((if ig then q.filter (fun p => p.1 ∈ s.base.valid_keys) else q).map Prod.fst)
            ((if ig then q.filter (fun p => p.1 ∈ s.base.valid_keys) else q).map Prod.snd)))).2
    exact extend_loop_chain rmatch _ s.base _ _
      (stack_chain_take rmatch s.stack s.base _ h) rfl

/-- Every reachable cache state satisfies the chain invariant. -/
theorem reachable_stack_chain [LinearOrder V] [Inhabited V] (rmatch : V → V → Bool)
    {s : CachedDataFrame V} (h : Reachable rmatch s) :
    stack_chain rmatch s.base s.stack := by
  induction h with
  | init base => trivial
  | step q ig hs ih =>
    have h2 := query_preserves_chain rmatch _ q ig ih
    rw [h2.1]
    exact h2.2

/-- Pointwise equal predicates agree on all. -/
theorem all_congr_mem {A : Type} {l : List A} {f g : A → Bool}
    (h : ∀ a ∈ l, f a = g a) : l.all f = l.all g := by
  induction l with
  | nil => rfl
  | cons a rest ih =>
    simp only [List.all_cons, h a (List.mem_cons_self a rest)]
    rw [ih (fun b hb => h b (List.mem_cons_of_mem a hb))]

/-- Sequential filtering by a list of fields is one filter by their
conjunction. -/
theorem apply_pairs_eq_filter [LinearOrder V] [Inhabited V] (rmatch : V → V → Bool)
    (cn : List String) (ln : List (Option String)) :
    ∀ (ps : List (String × FValue V)) (rows : List (List V × List V)),
      apply_pairs rmatch cn ln rows ps =
        rows.filter (fun r => ps.all (fun p => row_pred rmatch cn ln p r)) := by
  intro ps
  induction ps with
  | nil =>
    intro rows
    simp [apply_pairs, List.filter_true]
  | cons p ps2 ih =>
    intro rows
    show apply_pairs rmatch cn ln (rows.filter (row_pred rmatch cn ln p)) ps2 = _
    rw [ih, List.filter_filter]
    apply List.filter_congr
    intro r _
    simp [List.all_cons, Bool.and_comm]

/-- Splitting a list by a Boolean tag and testing each part tests the
whole list. -/
theorem all_filter_split {E2 : Type} (L : List E2) (pr g : E2 → Bool) :
    ((L.filter (fun e => pr e = true)).all g &&
      (L.filter (fun e => pr e = false)).all g) = L.all g := by
  induction L with
  | nil => rfl
  | cons e rest ih =>
    cases hpr : pr e <;> cases hg : g e <;>
      simp [List.filter_cons, hpr, hg, List.all_cons, ← ih]

/-- The elementwise AND over per-entry row masks is the mask of the
conjunction over the entries. -/
theorem fold_and_row_maps {A E2 : Type} (rows : List A) (es : List E2)
    (f : E2 → A → Bool) (hne : es ≠ []) :
    fold_and (es.map (fun e => rows.map (f e))) =
      rows.map (fun a => es.all (fun e => f e a)) := by
  cases es with
  | nil => exact absurd rfl hne
  | cons e esr =>
    have h1 : (e :: esr).map (fun e2 => rows.map (f e2)) =
        ((f e) :: esr.map f).map (fun g => rows.map g) := by
      simp [List.map_map]
    rw [h1, fold_and_maps]
    apply List.map_congr_left
    intro a _
    simp [List.all_cons, all_map_general]

/-- Resolving the fields of a dict whose names all resolve yields one
location per field, in order. -/
theorem resolve_locs_ok [LinearOrder V] (cn : List String) (ln : List (Option String)) :
    ∀ (q : List (String × FValue V)),
      (∀ p ∈ q, (resolve_names cn ln p.1).isSome = true) →
      ∃ locs, resolve_locs cn ln q = .ok locs ∧
        locs.map Prod.fst = q ∧
        ∀ e ∈ locs, resolve_names cn ln e.1.1 = some e.2 := by
  intro q
  induction q with
  | nil =>
    intro _
    exact ⟨[], rfl, rfl, by simp⟩
  | cons p rest ih =>
    intro h
    have hp := h p (List.mem_cons_self p rest)
    obtain ⟨loc, hloc⟩ := Option.isSome_iff_exists.mp hp
    obtain ⟨locs, hrec, hmap, hres⟩ := ih (fun x hx => h x (List.mem_cons_of_mem _ hx))
    refine ⟨(p, loc) :: locs, ?_, ?_, ?_⟩
    · simp [resolve_locs, hloc, hrec]
    · simp [hmap]
    · intro e he
      rcases List.mem_cons.mp he with h1 | h1
      · rw [h1]
        exact hloc
      · exact hres e h1

/-- Building the masks of applicable fields yields one row mask per
field. -/
theorem masks_of_ok [LinearOrder V] [Inhabited V] (rmatch : V → V → Bool) (t : Table V) :
    ∀ (L : List ((String × FValue V) × (Bool × Nat))),
      (∀ e ∈ L, mask_ok e.1.2 = true) →
      masks_of rmatch t L = .ok (L.map (fun e => t.rows.map
        (fun r => value_pred rmatch e.1.2 (cell_at r e.2)))) := by
  intro L
  induction L with
  | nil =>
    intro _
    rfl
  | cons e rest ih =>
    intro h
    have hc := compare_eq_of_mask_ok rmatch (series_of t e.2) (h e (List.mem_cons_self e rest))
    have hc2 : compare rmatch (series_of t e.2) e.1.2 =
        .ok (t.rows.map (fun r => value_pred rmatch e.1.2 (cell_at r e.2))) := by
      rw [hc]
      simp [series_of, List.map_map, Function.comp]
    simp [masks_of, hc2, ih (fun x hx => h x (List.mem_cons_of_mem _ hx))]

/-- query_frame of a single dict of applicable fields filters each row
by the conjunction of the field predicates. -/
theorem query_frame_ok_of_fields [LinearOrder V] [Inhabited V] (rmatch : V → V → Bool)
    (t : Table V) (q : FilterDict V)
    (hq : ∀ p ∈ q, field_ok t.colNames t.levelNames p = true) :
    query_frame rmatch t [q] = .ok ⟨t.colNames, t.levelNames,
      t.rows.filter (fun r => q.all (fun p =>
        row_pred rmatch t.colNames t.levelNames p r))⟩ := by
  rcases q with _ | ⟨p0, qr⟩
  · unfold query_frame
    rw [and_or_mask_all_empty _ _ (by intro q2 hq2; simpa using hq2)]
    have hrows : t.rows.filter (fun r => ([] : List (String × FValue V)).all
        (fun p => row_pred rmatch t.colNames t.levelNames p r)) = t.rows := by
      simp
    rw [hrows]
  · have hres : ∀ p ∈ (p0 :: qr), (resolve_names t.colNames t.levelNames p.1).isSome = true := by
      intro p hp
      have h2 := hq p hp
      simp only [field_ok, Bool.and_eq_true] at h2
      exact h2.1
    have hmo : ∀ p ∈ (p0 :: qr), mask_ok p.2 = true := by
      intro p hp
      have h2 := hq p hp
      simp only [field_ok, Bool.and_eq_true] at h2
      exact h2.2
    obtain ⟨locs, hlocs, hmap, hloc_res⟩ :=
      resolve_locs_ok t.colNames t.levelNames (p0 :: qr) hres
    have hmem_locs : ∀ e ∈ locs, e.1 ∈ (p0 :: qr) := by
      intro e he
      rw [← hmap]
      exact List.mem_map_of_mem Prod.fst he
    have hparts_sub : ∀ e ∈ (locs.filter (fun e => e.2.1 = true) ++
        locs.filter (fun e => e.2.1 = false)), e ∈ locs := by
      intro e he
      rcases List.mem_append.mp he with h1 | h1 <;> exact (List.mem_filter.mp h1).1
    have hmasks := masks_of_ok rmatch t
      (locs.filter (fun e => e.2.1 = true) ++ locs.filter (fun e => e.2.1 = false))
      (fun e he => hmo e.1 (hmem_locs e (hparts_sub e he)))
    have hff : filter_func rmatch t (p0 :: qr) =
        .ok ((locs.filter (fun e => e.2.1 = true) ++
          locs.filter (fun e => e.2.1 = false)).map (fun e => t.rows.map
            (fun r => value_pred rmatch e.1.2 (cell_at r e.2)))) := by
      simp only [filter_func, hlocs]
      exact hmasks
    rw [query_frame_single rmatch t _ (by simp), hff]
    have hlocs_ne : locs ≠ [] := by
      intro hc
      rw [hc] at hmap
      simp at hmap
    have hne_parts : (locs.filter (fun e => e.2.1 = true) ++
        locs.filter (fun e => e.2.1 = false)) ≠ [] := by
      rcases hlocs2 : locs with _ | ⟨e0, locs2⟩
      · exact absurd hlocs2 hlocs_ne
      · have he0 : e0 ∈ (e0 :: locs2).filter (fun e => e.2.1 = true) ++
            (e0 :: locs2).filter (fun e => e.2.1 = false) := by
          cases hb : e0.2.1
          · apply List.mem_append.mpr
            right
            simp [List.mem_filter, hb]
          · apply List.mem_append.mpr
            left
            simp [List.mem_filter, hb]
        exact List.ne_nil_of_mem he0
    show Except.ok { t with rows := select_mask t.rows (fold_and
      ((locs.filter (fun (e : (String × FValue V) × (Bool × Nat)) => e.2.1 = true) ++
        locs.filter (fun (e : (String × FValue V) × (Bool × Nat)) => e.2.1 = false)).map
          (fun (e : (String × FValue V) × (Bool × Nat)) => t.rows.map
            (fun r => value_pred rmatch e.1.2 (cell_at r e.2))))) } = _
    rw [fold_and_row_maps t.rows _ _ hne_parts, select_mask_map]
    have hfil : t.rows.filter (fun r => (locs.filter (fun e => e.2.1 = true) ++
        locs.filter (fun e => e.2.1 = false)).all
          (fun e => value_pred rmatch e.1.2 (cell_at r e.2))) =
        t.rows.filter (fun r => (p0 :: qr).all
          (fun p => row_pred rmatch t.colNames t.levelNames p r)) := by
      apply List.filter_congr
      intro r _
      rw [List.all_append,
        all_filter_split locs (fun e => e.2.1)
          (fun e => value_pred rmatch e.1.2 (cell_at r e.2))]
      have h2 : locs.all (fun e => value_pred rmatch e.1.2 (cell_at r e.2)) =
          locs.all (fun e => row_pred rmatch t.colNames t.levelNames e.1 r) :=
        all_congr_mem (fun e he => by simp [row_pred, hloc_res e he])
      rw [h2, ← hmap, all_map_general]
    rw [hfil]

/-- C1: for every base table and every sequence of query calls on a
CachedDataFrame, a successful query(Q) returns exactly the table obtained
by filtering the base table directly by the conjunction of Q's fields in
order (same rows, same order), regardless of the prior queries and of the
cache stack contents. -/
theorem cached_query_matches_direct [LinearOrder V] [Inhabited V]
    (rmatch : V → V → Bool) (s : CachedDataFrame V) (q : FilterDict V) (r : Table V)
    (hreach : Reachable rmatch s)
    (h : (CachedDataFrame.query rmatch s q false).1 = Except.ok r) :
    query_frame rmatch s.base [q] = Except.ok r := by
  have hch := reachable_stack_chain rmatch hreach
  have hm : matched_count s.stack (q.map Prod.fst) (q.map Prod.snd) =
      pair_match_count (stack_pairs s.stack) q := by
    have h1 : s.stack.map (fun it => it.key) = (stack_pairs s.stack).map Prod.fst := by
      simp [stack_pairs]
    have h2 : s.stack.map (fun it => it.value) = (stack_pairs s.stack).map Prod.snd := by
      simp [stack_pairs]
    rw [matched_count, h1, h2, min_lmc_eq_pair_match_count]
  have hE : (extend_loop rmatch
      (q.drop (matched_count s.stack (q.map Prod.fst) (q.map Prod.snd)))
      (last_table s.base (s.stack.take
        (matched_count s.stack (q.map Prod.fst) (q.map Prod.snd))))
      (s.stack.take
        (matched_count s.stack (q.map Prod.fst) (q.map Prod.snd)))).1 =
      Except.ok r := h
  rw [hm] at hE
  set m := pair_match_count (stack_pairs s.stack) q with hmdef
  have hch_take := stack_chain_take rmatch s.stack s.base m hch
  obtain ⟨hfields_stack, hlast⟩ := stack_chain_spec rmatch (s.stack.take m) s.base hch_take
  rcases hsplit : extend_loop rmatch (q.drop m)
      (last_table s.base (s.stack.take m)) (s.stack.take m) with ⟨res, st2⟩
  rw [hsplit] at hE
  have hres : res = Except.ok r := hE
  rw [hres, hlast] at hsplit
  obtain ⟨hr_eq, hfields_drop⟩ := extend_loop_ok rmatch (q.drop m) _ (s.stack.take m) r st2 hsplit
  have hr2 : r = ⟨s.base.colNames, s.base.levelNames,
      apply_pairs rmatch s.base.colNames s.base.levelNames
        (apply_pairs rmatch s.base.colNames s.base.levelNames s.base.rows
          (stack_pairs (s.stack.take m))) (q.drop m)⟩ := hr_eq
  have hfd : ∀ p ∈ q.drop m, field_ok s.base.colNames s.base.levelNames p = true :=
    hfields_drop
  have hsp_take : stack_pairs (s.stack.take m) = (stack_pairs s.stack).take m := by
    simp [stack_pairs, List.map_take]
  have hf2 := pair_match_count_take (stack_pairs s.stack) q
  rw [← hmdef] at hf2
  have happ2 : ∀ (l1 l2 : List (String × FValue V)) (rows : List (List V × List V)),
      apply_pairs rmatch s.base.colNames s.base.levelNames rows (l1 ++ l2) =
      apply_pairs rmatch s.base.colNames s.base.levelNames
        (apply_pairs rmatch s.base.colNames s.base.levelNames rows l1) l2 := by
    intro l1 l2 rows
    simp [apply_pairs, List.foldl_append]
  have hcongr := apply_pairs_congr rmatch s.base.colNames s.base.levelNames hf2 s.base.rows
  have hrows : apply_pairs rmatch s.base.colNames s.base.levelNames s.base.rows
      ((stack_pairs s.stack).take m ++ q.drop m) =
      apply_pairs rmatch s.base.colNames s.base.levelNames s.base.rows q := by
    rw [happ2, hcongr, ← happ2, List.take_append_drop]
  have hfields : ∀ p ∈ q, field_ok s.base.colNames s.base.levelNames p = true := by
    intro p hp
    rw [← List.take_append_drop m q] at hp
    rcases List.mem_append.mp hp with h1 | h1
    · obtain ⟨x, hx, hxk, hxv⟩ := forall2_exists_left hf2 p h1
      have hx2 : x ∈ stack_pairs (s.stack.take m) := by
        rw [hsp_take]
        exact hx
      have hxok := hfields_stack x hx2
      rw [← field_ok_congr s.base.colNames s.base.levelNames hxk hxv]
      exact hxok
    · exact hfd p h1
  have hr3 : r = ⟨s.base.colNames, s.base.levelNames,
      apply_pairs rmatch s.base.colNames s.base.levelNames s.base.rows q⟩ := by
    rw [hr2, hsp_take, ← happ2, hrows]
  rw [query_frame_ok_of_fields rmatch s.base q hfields, hr3, apply_pairs_eq_filter]

/-- Witness for C1 at a concrete two-row Int table, from a cache state
reached by one prior query. -/
theorem cached_query_matches_direct_witness :
    query_frame (fun (_ _ : Int) => false)
      (Table.mk ["a"] [] [([1], []), ([2], [])])
      [[("a", FValue.scalar 1)]] =
      Except.ok (Table.mk ["a"] [] [([1], [])]) :=
  cached_query_matches_direct (fun _ _ => false)
    (CachedDataFrame.query (fun _ _ => false)
      (CachedDataFrame.mk (Table.mk ["a"] [] [([1], []), ([2], [])]) [] 0)
      [("a", FValue.scalar 2)] false).2
    [("a", FValue.scalar 1)] (Table.mk ["a"] [] [([1], [])])
    (Reachable.step [("a", FValue.scalar 2)] false
      (Reachable.init (Table.mk ["a"] [] [([1], []), ([2], [])])))
    (by decide)

/-- Sanity check mirroring test_andor_mask: the OR of three dicts keeps
exactly the rows selected by the first two. -/
theorem sanity_query_frame :
    query_frame (fun _ _ => false)
      (Table.mk ["col1", "col2"] []
        [([0, 100], []), ([10, 110], []), ([11, 111], []),
         ([20, 111], []), ([21, 111], [])] : Table Int)
      [[("col1", .scalar 10)],
       [("col1", .scalar 11), ("col2", .scalar 111)],
       [("col1", .scalar 99), ("col2", .scalar 100)]] =
      .ok (Table.mk ["col1", "col2"] [] [([10, 110], []), ([11, 111], [])]) := by
  decide

end BlueetlCore
